import Mathlib

/-!
Verification of the conversation-and-retrieval orchestration core of a
business-document RAG chat application.

The development shallowly embeds the Python source:

* `Py` — Python string primitives (`str.split()`, `str.strip()`, ASCII
  lowering) shared by the embedded modules.
* `RagCache` — `conversation_manager.py` (question normalisation, the
  fuzzy answer cache `find_similar_question` / `cache_answer`).
* `Store` — `src/sqlite_manager.py` (conversations/messages tables and the
  conversation helpers).
* `ConvMgmt` — `src/conversation_management.py` (thread lifecycle layered
  over the store).
* `Sessions` — `src/session_management.py` (token validation / sliding
  expiry; the sessions-table CRUD primitives are modelled from the spec
  because they are absent from the source tree).
* `Suggest` — `RAGSystem._parse_response_suggestions` from
  `src/rag_system.py`, including executable models of the two regular
  expressions it uses.
* `ChatUI` — the generation/fallback section of
  `render_chat_tab` in `src/ui/chat.py`, with the external suggest/query
  calls supplied as oracles.

Machine integers do not occur (Python ints are unbounded); floats are
modelled by `ℚ` (the similarity arithmetic is exact on the small rationals
produced by Jaccard quotients).
-/

namespace Py

/-- Python whitespace as used by `str.split()` / `str.strip()` / `\s`
(space, tab, newline, carriage return, vertical tab, form feed). -/
def pyIsSpace (c : Char) : Bool :=
  c = ' ' || c = '\t' || c = '\n' || c = '\r' || c = Char.ofNat 11 || c = Char.ofNat 12

/-- ASCII lowering of one character (model of `str.lower()` restricted to
ASCII, which covers every string the embedded code manufactures). -/
def lowerAscii (c : Char) : Char :=
  if 'A' ≤ c ∧ c ≤ 'Z' then Char.ofNat (c.toNat + 32) else c

/-- `str.lower()` on a character list. -/
def pyLower (s : List Char) : List Char := s.map lowerAscii

/-- Worker for `pySplitWords`, carrying the (reversed) current word. -/
def pySplitWordsGo : List Char → List Char → List (List Char)
  | [], cur => if cur = [] then [] else [cur.reverse]
  | c :: cs, cur =>
    if pyIsSpace c then
      if cur = [] then pySplitWordsGo cs []
      else cur.reverse :: pySplitWordsGo cs []
    else pySplitWordsGo cs (c :: cur)

/-- Python `str.split()` with no argument: split on runs of whitespace,
discarding empty fields and leading/trailing whitespace. -/
def pySplitWords (s : List Char) : List (List Char) := pySplitWordsGo s []

/-- Python `str.strip()`: drop whitespace from both ends. -/
def pyStrip (s : List Char) : List Char :=
  ((s.dropWhile pyIsSpace).reverse.dropWhile pyIsSpace).reverse

end Py

/-- A post-processed source document as stored in the answer cache and
returned to the UI (`{content, source, metadata}` dictionaries). -/
structure SourceDoc where
  content : String
  source : String
deriving DecidableEq, Repr

namespace RagCache

/-- One value of the `question_cache` dict in `conversation_manager.py`:
`{question, answer, source_documents, timestamp}`.  The `timestamp` field
(`datetime.now().isoformat()`) is external-clock output that no cache
operation ever reads, and is omitted. -/
structure CacheEntry where
  question : String
  answer : String
  sourceDocuments : List SourceDoc
deriving DecidableEq, Repr

/-- The result dictionary of a successful `find_similar_question`. -/
structure CacheHit where
  answer : String
  sourceDocuments : List SourceDoc
  similarity : ℚ
  originalQuestion : String
deriving DecidableEq, Repr

/-- The normalised form of a question:
`" ".join(question.lower().split())`. -/
def normalizeQuestion (q : String) : String :=
  String.mk (List.intercalate [' '] (Py.pySplitWords (Py.pyLower q.data)))

/-- `_hash_question`: the md5 digest of the normalised question.  md5 is
modelled as an injective encoding, i.e. by the normalised string itself
(collisions are negligible; equal normalised strings have equal digests,
which is the only property the cache relies on). -/
def hashQuestion (q : String) : String := normalizeQuestion q

/-- `set(question.lower().split())` — the lowercased whitespace-tokenised
word set of a question. -/
def tokenSet (q : String) : Finset String :=
  ((Py.pySplitWords (Py.pyLower q.data)).map String.mk).toFinset

/-- `intersection / union if union > 0 else 0.0` — the Jaccard similarity
of two word sets. -/
def jaccard (a b : Finset String) : ℚ :=
  if 0 < (a ∪ b).card then ((a ∩ b).card : ℚ) / ((a ∪ b).card : ℚ) else 0

/-- The `question_cache` dict: keys are question hashes, iteration order is
insertion order (Python dict semantics). -/
abbrev Cache := List (String × CacheEntry)

/-- Similarity of the query's token set against one cached entry. -/
def entrySim (qTokens : Finset String) (e : CacheEntry) : ℚ :=
  jaccard qTokens (tokenSet e.question)

/-- The scan loop of `find_similar_question`: fold over the cached entries
carrying `(best_match, best_similarity)`, skipping entries with an empty
token set and updating on `similarity > best_similarity and
similarity >= threshold`. -/
def scanCache (qTokens : Finset String) (threshold : ℚ) :
    Cache → Option CacheEntry × ℚ → Option CacheEntry × ℚ
  | [], best => best
  | (_, e) :: rest, (bestMatch, bestSim) =>
    if tokenSet e.question = ∅ then
      scanCache qTokens threshold rest (bestMatch, bestSim)
    else
      let sim := entrySim qTokens e
      if bestSim < sim ∧ threshold ≤ sim then
        scanCache qTokens threshold rest (some e, sim)
      else
        scanCache qTokens threshold rest (bestMatch, bestSim)

/-- `find_similar_question(question, threshold=0.8)`. -/
def findSimilarQuestion (cache : Cache) (question : String) (threshold : ℚ) :
    Option CacheHit :=
  let questionHash := hashQuestion question
  match cache.lookup questionHash with
  | some cached => some ⟨cached.answer, cached.sourceDocuments, 1, cached.question⟩
  | none =>
    match scanCache (tokenSet question) threshold cache (none, 0) with
    | (some best, bestSim) =>
      some ⟨best.answer, best.sourceDocuments, bestSim, best.question⟩
    | (none, _) => none

/-- `cache_answer`: dict assignment `question_cache[hash] = {...}` —
overwrite in place if the key is present, append otherwise. -/
def cacheAnswer (cache : Cache) (question answer : String)
    (sourceDocuments : List SourceDoc) : Cache :=
  let h := hashQuestion question
  if (cache.lookup h).isSome then
    cache.map fun p =>
      (p.1, if p.1 = h then ⟨question, answer, sourceDocuments⟩ else p.2)
  else
    cache ++ [(h, ⟨question, answer, sourceDocuments⟩)]

theorem lookup_cacheAnswer (cache : Cache) (q a : String) (s : List SourceDoc) :
    (cacheAnswer cache q a s).lookup (hashQuestion q) = some ⟨q, a, s⟩ := by
  unfold cacheAnswer
  by_cases h : (cache.lookup (hashQuestion q)).isSome = true
  · rw [if_pos h]
    induction cache with
    | nil => simp [List.lookup] at h
    | cons p rest ih =>
      obtain ⟨k, v⟩ := p
      by_cases hk : k = hashQuestion q
      · subst hk
        simp [List.lookup]
      · have hne : (hashQuestion q == k) = false := by
          simp only [beq_eq_false_iff_ne, ne_eq]
          exact fun e => hk e.symm
        have h' : (rest.lookup (hashQuestion q)).isSome = true := by
          simpa [List.lookup, hne] using h
        simp [List.lookup, hne, hk, ih h']
  · rw [if_neg h]
    induction cache with
    | nil => simp [List.lookup]
    | cons p rest ih =>
      obtain ⟨k, v⟩ := p
      by_cases hk : k = hashQuestion q
      · subst hk
        simp [List.lookup] at h
      · have hne : (hashQuestion q == k) = false := by
          simp only [beq_eq_false_iff_ne, ne_eq]
          exact fun e => hk e.symm
        have h' : ¬ (rest.lookup (hashQuestion q)).isSome = true := by
          simpa [List.lookup, hne] using h
        simpa [List.lookup, hne] using ih h'

/-- C4: after `cache_answer(q, a, s)`, any query whose normalised form
equals that of `q` is an exact-hash hit returning similarity `1.0`, the
stored answer and the stored sources. -/
theorem cache_answer_exact_match (cache : Cache) (q a : String)
    (s : List SourceDoc) (θ : ℚ) (q' : String)
    (h : normalizeQuestion q' = normalizeQuestion q) :
    findSimilarQuestion (cacheAnswer cache q a s) q' θ = some ⟨a, s, 1, q⟩ := by
  have hh : hashQuestion q' = hashQuestion q := h
  simp only [findSimilarQuestion, hh, lookup_cacheAnswer]

/-- An entry beats the running best `s`: its token set is non-empty, its
similarity reaches the threshold and strictly exceeds `s` (the update guard
of the scan loop). -/
def Beats (qTokens : Finset String) (θ s : ℚ) (e : CacheEntry) : Prop :=
  tokenSet e.question ≠ ∅ ∧ θ ≤ entrySim qTokens e ∧ s < entrySim qTokens e

instance (qTokens : Finset String) (θ s : ℚ) (e : CacheEntry) :
    Decidable (Beats qTokens θ s e) := by
  unfold Beats
  infer_instance

/-- Full characterisation of the scan loop, for an arbitrary accumulator:
if no entry beats the running best the accumulator is returned unchanged;
otherwise the loop returns the first entry attaining the maximum
beating similarity, together with that similarity. -/
theorem scanCache_go_spec (qT : Finset String) (θ : ℚ) :
    ∀ (l : Cache) (b : Option CacheEntry) (s : ℚ),
      ((∀ p ∈ l, ¬ Beats qT θ s p.2) → scanCache qT θ l (b, s) = (b, s)) ∧
      (∀ p ∈ l, Beats qT θ s p.2 →
        ∃ j, ∃ hj : j < l.length,
          Beats qT θ s (l.get ⟨j, hj⟩).2 ∧
          scanCache qT θ l (b, s) =
            (some (l.get ⟨j, hj⟩).2, entrySim qT (l.get ⟨j, hj⟩).2) ∧
          (∀ k, ∀ hk : k < l.length, Beats qT θ s (l.get ⟨k, hk⟩).2 →
            entrySim qT (l.get ⟨k, hk⟩).2 ≤ entrySim qT (l.get ⟨j, hj⟩).2) ∧
          (∀ k, ∀ hk : k < l.length, k < j → Beats qT θ s (l.get ⟨k, hk⟩).2 →
            entrySim qT (l.get ⟨k, hk⟩).2 < entrySim qT (l.get ⟨j, hj⟩).2)) := by
  intro l
  induction l with
  | nil =>
    intro b s
    refine ⟨fun _ => rfl, fun p hp => absurd hp (List.not_mem_nil p)⟩
  | cons hd rest ih =>
    obtain ⟨key, e⟩ := hd
    intro b s
    by_cases hemp : tokenSet e.question = ∅
    · have hstep : scanCache qT θ ((key, e) :: rest) (b, s) =
          scanCache qT θ rest (b, s) := by
        simp only [scanCache]
        rw [if_pos hemp]
      have hnotb : ¬ Beats qT θ s e := fun hb => hb.1 hemp
      constructor
      · intro hall
        rw [hstep]
        exact (ih b s).1 fun p hp => hall p (List.mem_cons_of_mem _ hp)
      · intro p hp hbp
        have hp' : p ∈ rest := by
          rcases List.mem_cons.mp hp with h | h
          · exact absurd hbp (h ▸ hnotb)
          · exact h
        obtain ⟨j, hj, hbj, hres, hmax, htie⟩ := (ih b s).2 p hp' hbp
        refine ⟨j + 1, Nat.succ_lt_succ hj, ?_, ?_, ?_, ?_⟩
        · simpa using hbj
        · rw [hstep]; simpa using hres
        · intro k hk hbk
          cases k with
          | zero => exact absurd hbk (by simpa using hnotb)
          | succ k' =>
            have hk' : k' < rest.length := Nat.lt_of_succ_lt_succ hk
            simpa using hmax k' hk' (by simpa using hbk)
        · intro k hk hlt hbk
          cases k with
          | zero => exact absurd hbk (by simpa using hnotb)
          | succ k' =>
            have hk' : k' < rest.length := Nat.lt_of_succ_lt_succ hk
            simpa using htie k' hk' (Nat.lt_of_succ_lt_succ hlt) (by simpa using hbk)
    · by_cases hup : s < entrySim qT e ∧ θ ≤ entrySim qT e
      · have hstep : scanCache qT θ ((key, e) :: rest) (b, s) =
            scanCache qT θ rest (some e, entrySim qT e) := by
          simp only [scanCache]
          rw [if_neg hemp, if_pos hup]
        have hbe : Beats qT θ s e := ⟨hemp, hup.2, hup.1⟩
        have hmain : ∃ j, ∃ hj : j < ((key, e) :: rest).length,
            Beats qT θ s (((key, e) :: rest).get ⟨j, hj⟩).2 ∧
            scanCache qT θ ((key, e) :: rest) (b, s) =
              (some (((key, e) :: rest).get ⟨j, hj⟩).2,
               entrySim qT (((key, e) :: rest).get ⟨j, hj⟩).2) ∧
            (∀ k, ∀ hk : k < ((key, e) :: rest).length,
              Beats qT θ s (((key, e) :: rest).get ⟨k, hk⟩).2 →
              entrySim qT (((key, e) :: rest).get ⟨k, hk⟩).2 ≤
                entrySim qT (((key, e) :: rest).get ⟨j, hj⟩).2) ∧
            (∀ k, ∀ hk : k < ((key, e) :: rest).length, k < j →
              Beats qT θ s (((key, e) :: rest).get ⟨k, hk⟩).2 →
              entrySim qT (((key, e) :: rest).get ⟨k, hk⟩).2 <
                entrySim qT (((key, e) :: rest).get ⟨j, hj⟩).2) := by
          by_cases hb2 : ∃ p ∈ rest, Beats qT θ (entrySim qT e) p.2
          · obtain ⟨p, hp, hbp⟩ := hb2
            obtain ⟨j, hj, hbj, hres, hmax, htie⟩ :=
              (ih (some e) (entrySim qT e)).2 p hp hbp
            have hej : entrySim qT e < entrySim qT (rest.get ⟨j, hj⟩).2 := hbj.2.2
            refine ⟨j + 1, Nat.succ_lt_succ hj, ?_, ?_, ?_, ?_⟩
            · exact ⟨hbj.1, hbj.2.1, by simpa using lt_trans hup.1 hej⟩
            · rw [hstep]; simpa using hres
            · intro k hk hbk
              cases k with
              | zero => simpa using le_of_lt hej
              | succ k' =>
                have hk' : k' < rest.length := Nat.lt_of_succ_lt_succ hk
                have hbk' : Beats qT θ s (rest.get ⟨k', hk'⟩).2 := by simpa using hbk
                rcases lt_or_le (entrySim qT e) (entrySim qT (rest.get ⟨k', hk'⟩).2) with hgt | hle
                · simpa using hmax k' hk' ⟨hbk'.1, hbk'.2.1, hgt⟩
                · simpa using le_trans hle (le_of_lt hej)
            · intro k hk hlt hbk
              cases k with
              | zero => simpa using hej
              | succ k' =>
                have hk' : k' < rest.length := Nat.lt_of_succ_lt_succ hk
                have hbk' : Beats qT θ s (rest.get ⟨k', hk'⟩).2 := by simpa using hbk
                rcases lt_or_le (entrySim qT e) (entrySim qT (rest.get ⟨k', hk'⟩).2) with hgt | hle
                · simpa using htie k' hk' (Nat.lt_of_succ_lt_succ hlt) ⟨hbk'.1, hbk'.2.1, hgt⟩
                · simpa using lt_of_le_of_lt hle hej
          · push_neg at hb2
            have hres := (ih (some e) (entrySim qT e)).1 hb2
            refine ⟨0, Nat.succ_pos _, by simpa using hbe, ?_, ?_, ?_⟩
            · rw [hstep]; simpa using hres
            · intro k hk hbk
              cases k with
              | zero => simp
              | succ k' =>
                have hk' : k' < rest.length := Nat.lt_of_succ_lt_succ hk
                have hbk' : Beats qT θ s (rest.get ⟨k', hk'⟩).2 := by simpa using hbk
                have hnb := hb2 (rest.get ⟨k', hk'⟩) (List.get_mem rest _ _)
                have : ¬ entrySim qT e < entrySim qT (rest.get ⟨k', hk'⟩).2 :=
                  fun hgt => hnb ⟨hbk'.1, hbk'.2.1, hgt⟩
                simpa using le_of_not_lt this
            · intro k hk hlt _
              exact absurd hlt (Nat.not_lt_zero k)
        exact ⟨fun hall => absurd hbe (hall (key, e) (List.mem_cons_self _ _)),
               fun _ _ _ => hmain⟩
      · have hstep : scanCache qT θ ((key, e) :: rest) (b, s) =
            scanCache qT θ rest (b, s) := by
          simp only [scanCache]
          rw [if_neg hemp, if_neg hup]
        have hnotb : ¬ Beats qT θ s e := fun hb => hup ⟨hb.2.2, hb.2.1⟩
        constructor
        · intro hall
          rw [hstep]
          exact (ih b s).1 fun p hp => hall p (List.mem_cons_of_mem _ hp)
        · intro p hp hbp
          have hp' : p ∈ rest := by
            rcases List.mem_cons.mp hp with h | h
            · exact absurd hbp (h ▸ hnotb)
            · exact h
          obtain ⟨j, hj, hbj, hres, hmax, htie⟩ := (ih b s).2 p hp' hbp
          refine ⟨j + 1, Nat.succ_lt_succ hj, ?_, ?_, ?_, ?_⟩
          · simpa using hbj
          · rw [hstep]; simpa using hres
          · intro k hk hbk
            cases k with
            | zero => exact absurd hbk (by simpa using hnotb)
            | succ k' =>
              have hk' : k' < rest.length := Nat.lt_of_succ_lt_succ hk
              simpa using hmax k' hk' (by simpa using hbk)
          · intro k hk hlt hbk
            cases k with
            | zero => exact absurd hbk (by simpa using hnotb)
            | succ k' =>
              have hk' : k' < rest.length := Nat.lt_of_succ_lt_succ hk
              simpa using htie k' hk' (Nat.lt_of_succ_lt_succ hlt) (by simpa using hbk)

/-- The post-condition the corrected C3 asserts of `find_similar_question`
when no exact hash match exists: `none` exactly when no entry qualifies
(non-empty token set, similarity ≥ threshold and > 0), otherwise the first
entry attaining the maximum qualifying similarity, returned with its
answer, sources, similarity and original question. -/
def FindSimilarPost (cache : Cache) (question : String) (θ : ℚ) : Prop :=
  match findSimilarQuestion cache question θ with
  | none => ∀ p ∈ cache, ¬ Beats (tokenSet question) θ 0 p.2
  | some r =>
    ∃ j, ∃ hj : j < cache.length,
      Beats (tokenSet question) θ 0 (cache.get ⟨j, hj⟩).2 ∧
      r = ⟨(cache.get ⟨j, hj⟩).2.answer, (cache.get ⟨j, hj⟩).2.sourceDocuments,
           entrySim (tokenSet question) (cache.get ⟨j, hj⟩).2,
           (cache.get ⟨j, hj⟩).2.question⟩ ∧
      (∀ k, ∀ hk : k < cache.length,
        Beats (tokenSet question) θ 0 (cache.get ⟨k, hk⟩).2 →
        entrySim (tokenSet question) (cache.get ⟨k, hk⟩).2 ≤
          entrySim (tokenSet question) (cache.get ⟨j, hj⟩).2) ∧
      (∀ k, ∀ hk : k < cache.length, k < j →
        Beats (tokenSet question) θ 0 (cache.get ⟨k, hk⟩).2 →
        entrySim (tokenSet question) (cache.get ⟨k, hk⟩).2 <
          entrySim (tokenSet question) (cache.get ⟨j, hj⟩).2)

/-- C3 (amended): with no exact normalized-hash match, the fuzzy scan
returns the first entry attaining the maximum Jaccard similarity that is
`≥ threshold` and strictly positive (entries with empty token sets are
skipped), or `None` when no entry qualifies. -/
theorem find_similar_question_spec (cache : Cache) (question : String) (θ : ℚ)
    (hmiss : cache.lookup (hashQuestion question) = none) :
    FindSimilarPost cache question θ := by
  by_cases hb : ∃ p ∈ cache, Beats (tokenSet question) θ 0 p.2
  · obtain ⟨p, hp, hbp⟩ := hb
    obtain ⟨j, hj, hbj, hres, hmax, htie⟩ :=
      (scanCache_go_spec (tokenSet question) θ cache none 0).2 p hp hbp
    have hfind : findSimilarQuestion cache question θ =
        some ⟨(cache.get ⟨j, hj⟩).2.answer, (cache.get ⟨j, hj⟩).2.sourceDocuments,
              entrySim (tokenSet question) (cache.get ⟨j, hj⟩).2,
              (cache.get ⟨j, hj⟩).2.question⟩ := by
      simp only [findSimilarQuestion, hmiss, hres]
    unfold FindSimilarPost
    rw [hfind]
    exact ⟨j, hj, hbj, rfl, hmax, htie⟩
  · push_neg at hb
    have hres := (scanCache_go_spec (tokenSet question) θ cache none 0).1 hb
    have hfind : findSimilarQuestion cache question θ = none := by
      simp only [findSimilarQuestion, hmiss, hres]
    unfold FindSimilarPost
    rw [hfind]
    exact hb

theorem jaccard_nonneg (a b : Finset String) : 0 ≤ jaccard a b := by
  unfold jaccard
  split
  · exact div_nonneg (by positivity) (by positivity)
  · exact le_refl 0

theorem jaccard_inter_empty (a b : Finset String) (h : a ∩ b = ∅) :
    jaccard a b = 0 := by
  unfold jaccard
  rw [h]
  simp

/-- Counterexample to C3 as stated: at `threshold = 0` the cached entry
`"b"` has a non-empty token set and Jaccard similarity `0 ≥ threshold`
against the query `"a"`, so the claim requires the maximal qualifying
entry to be returned, but the code's `similarity > best_similarity` guard
(with `best_similarity` initialised to `0.0`) rejects it and
`find_similar_question` returns `None`. -/
theorem find_similar_question_zero_threshold_cex :
    ([(hashQuestion "b", ⟨"b", "ans", []⟩)] : Cache).lookup (hashQuestion "a") = none ∧
    tokenSet ("b" : String) ≠ ∅ ∧
    (0 : ℚ) ≤ entrySim (tokenSet "a") ⟨"b", "ans", []⟩ ∧
    findSimilarQuestion [(hashQuestion "b", ⟨"b", "ans", []⟩)] "a" 0 = none := by
  have hsim : entrySim (tokenSet "a") (⟨"b", "ans", []⟩ : CacheEntry) = 0 := by
    unfold entrySim
    exact jaccard_inter_empty _ _ (by decide)
  have hl : ([(hashQuestion "b", ⟨"b", "ans", []⟩)] : Cache).lookup
      (hashQuestion "a") = none := by decide
  have hne : ¬ tokenSet ("b" : String) = ∅ := by decide
  refine ⟨hl, hne, ?_, ?_⟩
  · rw [hsim]
  · simp only [findSimilarQuestion, hl, scanCache, hsim]
    rw [if_neg hne]
    simp [scanCache]

/-- Witness for C3's amended theorem on a concrete two-entry cache. -/
theorem find_similar_question_spec_witness :
    (([(hashQuestion "what is your return policy",
        ⟨"what is your return policy", "30 days", []⟩)] : Cache).lookup
      (hashQuestion "what is the return policy") = none) ∧
    FindSimilarPost
      [(hashQuestion "what is your return policy",
        ⟨"what is your return policy", "30 days", []⟩)]
      "what is the return policy" (4/5) :=
  ⟨by decide,
   find_similar_question_spec
     [(hashQuestion "what is your return policy",
       ⟨"what is your return policy", "30 days", []⟩)]
     "what is the return policy" (4/5) (by decide)⟩

/-- Witness for C4 at the spec's own example. -/
theorem cache_answer_exact_match_witness :
    normalizeQuestion "What are your hours?" = normalizeQuestion "what are  your hours?" ∧
    findSimilarQuestion (cacheAnswer [] "what are  your hours?" "9-5" []) "What are your hours?" (4/5)
      = some ⟨"9-5", [], 1, "what are  your hours?"⟩ :=
  ⟨by decide,
   cache_answer_exact_match [] "what are  your hours?" "9-5" [] (4/5)
     "What are your hours?" (by decide)⟩

end RagCache

namespace Store

/-- Python truthiness of an optional string (`if user_id:` style tests):
`None` and the empty string are falsy. -/
def truthy : Option String → Bool
  | some s => s ≠ ""
  | none => false

/-- A row of the `conversations` table
(`id TEXT PRIMARY KEY, user_id TEXT, title TEXT, created_at TIMESTAMP`).
`created_at` defaults to `CURRENT_TIMESTAMP` and is never consulted by the
operations verified here; it is omitted. -/
structure ConversationRow where
  id : String
  userId : Option String
  title : String
deriving DecidableEq, Repr

/-- A row of the `messages` table
(`id TEXT PRIMARY KEY, conversation_id TEXT NOT NULL, position INT,
sender TEXT, message TEXT NOT NULL, created_at TIMESTAMP`); `created_at`
omitted as above. -/
structure MessageRow where
  id : String
  conversationId : String
  position : Nat
  sender : String
  message : String
deriving DecidableEq, Repr

/-- The SQLite database state (the `users` table plays no part in the
claims verified here). Row order is rowid order, i.e. insertion order. -/
structure DB where
  conversations : List ConversationRow
  messages : List MessageRow
deriving DecidableEq, Repr

def emptyDB : DB := ⟨[], []⟩

/-- `get_conversation_of_user`: guarded by the truthiness of both
arguments, then `SELECT id, title, created_at FROM conversations WHERE
id = ?` with `fetch="one"` — the `user_id` argument is NOT part of the
query. -/
def getConversationOfUser (db : DB) (conversationId : String)
    (userId : Option String) : Option ConversationRow :=
  if conversationId ≠ "" ∧ truthy userId then
    db.conversations.find? fun r => r.id == conversationId
  else none

/-- `INSERT INTO conversations ...`: appends the row, or raises
`sqlite3.IntegrityError` when the TEXT PRIMARY KEY `id` already exists.
The returned `Nat` models `cursor.lastrowid` (the rowid of the appended
row on a table that only grows). -/
def insertConversation (db : DB) (row : ConversationRow) :
    Except String (DB × Nat) :=
  if db.conversations.any (fun r => r.id == row.id) then
    .error "UNIQUE constraint failed: conversations.id"
  else
    .ok ({ db with conversations := db.conversations ++ [row] },
         db.conversations.length + 1)

/-- `create_conversation(conversation_id, title, user_id)`: insert only if
`get_conversation_of_user` finds nothing; an existing conversation makes
the function fall through and return `None` (modelled by `some (db, none)`
— no insert, no id). -/
def createConversation (db : DB) (conversationId title : String)
    (userId : Option String) : Except String (DB × Option Nat) :=
  match getConversationOfUser db conversationId userId with
  | some _ => .ok (db, none)
  | none =>
    match insertConversation db ⟨conversationId, userId, title⟩ with
    | .ok (db', rowid) => .ok (db', some rowid)
    | .error e => .error e

/-- `SELECT COALESCE(MAX(position), 0) FROM messages WHERE
conversation_id = ?` (composed with the pythonic `or 0`). -/
def maxPosition (db : DB) (conversationId : String) : Nat :=
  (db.messages.filter fun m => m.conversationId == conversationId).foldr
    (fun m acc => max m.position acc) 0

/-- `add_message(conversation_id, sender, message)`: read the maximum
position of the conversation, insert at `max + 1`, and return the new
position.  `msgId` stands for the caller-side `f"MSG_{uuid4().hex[:12]}"`
(fresh external randomness; uuid collisions are negligible and the message
id is never consulted afterwards, so the primary-key check is elided
here). No existence check on the conversation is performed, and the
declared FOREIGN KEY is not enforced (SQLite foreign-key enforcement is
off by default and the code issues no pragma). -/
def addMessage (db : DB) (conversationId sender message : String)
    (msgId : String) : DB × Nat :=
  let newPosition := maxPosition db conversationId + 1
  ({ db with messages :=
      db.messages ++ [⟨msgId, conversationId, newPosition, sender, message⟩] },
   newPosition)

/-- `get_all_conversations_of_user(user_id)`: filter by owner when the
argument is truthy, otherwise return every conversation. -/
def getAllConversationsOfUser (db : DB) (userId : Option String) :
    List ConversationRow :=
  if truthy userId then db.conversations.filter fun r => r.userId == userId
  else db.conversations

/-- `update_title(conversation_id, title)`:
`UPDATE conversations SET title = ? WHERE id = ?`, guarded by the
truthiness of `conversation_id`. -/
def updateTitle (db : DB) (conversationId title : String) : DB :=
  if conversationId ≠ "" then
    { db with conversations := db.conversations.map fun r =>
        if r.id = conversationId then { r with title := title } else r }
  else db

/-- Iterated sequential `add_message` calls on one conversation; each call
supplies its own fresh message id.  Returns the final database and the
list of returned positions. -/
def addMessagesSeq (db : DB) (conversationId : String) :
    List (String × String × String) → DB × List Nat
  | [] => (db, [])
  | (msgId, sender, msg) :: rest =>
    let r1 := addMessage db conversationId sender msg msgId
    let r2 := addMessagesSeq r1.1 conversationId rest
    (r2.1, r1.2 :: r2.2)

/-- Position uniqueness per conversation. -/
def NoDupPositions (db : DB) : Prop :=
  db.messages.Pairwise fun a b =>
    a.conversationId = b.conversationId → a.position ≠ b.position

theorem foldr_max_init (l : List MessageRow) (a : Nat) :
    l.foldr (fun m acc => max m.position acc) a =
      max a (l.foldr (fun m acc => max m.position acc) 0) := by
  induction l with
  | nil => simp
  | cons m rest ih =>
    simp only [List.foldr_cons, ih]
    omega

theorem maxPosition_addMessage (db : DB) (c s m id : String) :
    maxPosition (addMessage db c s m id).1 c = maxPosition db c + 1 := by
  unfold addMessage maxPosition
  simp only [List.filter_append]
  rw [List.foldr_append]
  simp only [List.filter_cons]
  rw [if_pos (by simp)]
  simp only [List.filter_nil, List.foldr_cons, List.foldr_nil]
  rw [foldr_max_init]
  omega

theorem mem_position_le_maxPosition (db : DB) (c : String) :
    ∀ m ∈ db.messages, m.conversationId = c → m.position ≤ maxPosition db c := by
  intro m hm hc
  unfold maxPosition
  have hmem : m ∈ db.messages.filter fun r => r.conversationId == c := by
    simp only [List.mem_filter]
    exact ⟨hm, by simp [hc]⟩
  generalize db.messages.filter (fun r => r.conversationId == c) = l at hmem
  induction l with
  | nil => simp at hmem
  | cons a rest ih =>
    simp only [List.foldr_cons]
    rcases List.mem_cons.mp hmem with h | h
    · subst h; omega
    · have := ih h
      omega

theorem addMessagesSeq_positions (c : String) :
    ∀ (calls : List (String × String × String)) (db : DB),
      (addMessagesSeq db c calls).2 =
        List.range' (maxPosition db c + 1) calls.length := by
  intro calls
  induction calls with
  | nil => intro db; simp [addMessagesSeq]
  | cons hd rest ih =>
    intro db
    obtain ⟨msgId, sender, msg⟩ := hd
    simp only [addMessagesSeq, List.length_cons, List.range'_succ]
    rw [ih, maxPosition_addMessage]
    rfl

/-- C5: (a) starting from a conversation with no messages, N sequential
`add_message` calls return positions `1, 2, ..., N` (each call inserts at
`max + 1`); (b) a single `add_message` step preserves the invariant that
no two messages of the same conversation share a position, so the
invariant holds in every state reachable by sequential appends. -/
theorem add_message_position_spec :
    (∀ (db : DB) (c : String) (calls : List (String × String × String)),
       db.messages.filter (fun m => m.conversationId == c) = [] →
       (addMessagesSeq db c calls).2 = List.range' 1 calls.length) ∧
    (∀ (db : DB) (c s m id : String),
       NoDupPositions db → NoDupPositions (addMessage db c s m id).1) := by
  constructor
  · intro db c calls hfresh
    have h0 : maxPosition db c = 0 := by
      unfold maxPosition
      rw [hfresh]
      rfl
    rw [addMessagesSeq_positions, h0]
  · intro db c s m id hnd
    unfold NoDupPositions at hnd ⊢
    show List.Pairwise _ (db.messages ++ [⟨id, c, maxPosition db c + 1, s, m⟩])
    rw [List.pairwise_append]
    refine ⟨hnd, List.pairwise_singleton _ _, ?_⟩
    intro a ha b hb
    rw [List.mem_singleton] at hb
    subst hb
    intro hconv
    have hc' : a.conversationId = c := by simpa using hconv
    have hle : a.position ≤ maxPosition db c :=
      mem_position_le_maxPosition db c a ha hc'
    show a.position ≠ maxPosition db c + 1
    omega

/-- Witness for C5: three appends on a fresh conversation produce
positions `[1, 2, 3]`, and one append preserves position uniqueness. -/
theorem add_message_position_spec_witness :
    (addMessagesSeq emptyDB "c"
      [("MSG_a", "user", "hi"), ("MSG_b", "assistant", "yo"), ("MSG_c", "user", "ok")]).2
      = [1, 2, 3] ∧
    NoDupPositions (addMessage emptyDB "c" "user" "hi" "MSG_a").1 := by
  constructor
  · have h := add_message_position_spec.1 emptyDB "c"
      [("MSG_a", "user", "hi"), ("MSG_b", "assistant", "yo"), ("MSG_c", "user", "ok")]
      (by decide)
    rw [h]
    decide
  · exact add_message_position_spec.2 emptyDB "c" "user" "hi" "MSG_a"
      (by unfold NoDupPositions emptyDB; simp)

/-- Counterexample to C6 as stated: on an empty store (no conversations at
all) `add_message("X", ...)` does not fail — it inserts the message at
position 1 and returns 1, although the claim requires a failure with
`UnknownConversation` and no insert. -/
theorem add_message_unknown_conversation_cex :
    emptyDB.conversations = [] ∧
    (addMessage emptyDB "X" "user" "hi" "MSG_1").2 = 1 ∧
    (addMessage emptyDB "X" "user" "hi" "MSG_1").1.messages =
      [⟨"MSG_1", "X", 1, "user", "hi"⟩] := by
  refine ⟨rfl, by decide, by decide⟩

/-- C6 (amended): the store-level `add_message` performs no existence
check: for a conversation id absent from the `conversations` table it
still inserts the message (at `max + 1`, i.e. at position 1 when the id
has no messages) and returns that position; the declared FOREIGN KEY is
not enforced.  Auto-creation of missing threads happens only in the
management layer above. -/
theorem add_message_unknown_conversation_inserts (db : DB)
    (c s m id : String)
    (_hunknown : ∀ r ∈ db.conversations, r.id ≠ c) :
    (addMessage db c s m id).1.messages =
      db.messages ++ [⟨id, c, maxPosition db c + 1, s, m⟩] ∧
    (addMessage db c s m id).2 = maxPosition db c + 1 ∧
    (addMessage db c s m id).1.conversations = db.conversations :=
  ⟨rfl, rfl, rfl⟩

/-- Witness for the amended C6. -/
theorem add_message_unknown_conversation_inserts_witness :
    (addMessage emptyDB "X" "user" "hi" "MSG_1").1.messages =
      emptyDB.messages ++ [⟨"MSG_1", "X", maxPosition emptyDB "X" + 1, "user", "hi"⟩] ∧
    (addMessage emptyDB "X" "user" "hi" "MSG_1").2 = maxPosition emptyDB "X" + 1 ∧
    (addMessage emptyDB "X" "user" "hi" "MSG_1").1.conversations = emptyDB.conversations :=
  add_message_unknown_conversation_inserts emptyDB "X" "user" "hi" "MSG_1"
    (by intro r hr; simp [emptyDB] at hr)

/-- C10: `get_conversation_of_user` filters by conversation id only, so
any two truthy owner arguments observe the same record; consequently
`create_conversation` under a second owner inserts nothing and returns no
id whenever the conversation id already exists under any owner (creation
idempotence is global across users). -/
theorem get_conversation_owner_independent :
    (∀ (db : DB) (cid : String) (u1 u2 : Option String),
       truthy u1 = true → truthy u2 = true →
       getConversationOfUser db cid u1 = getConversationOfUser db cid u2) ∧
    (∀ (db : DB) (cid title : String) (u2 : Option String),
       truthy u2 = true → cid ≠ "" →
       (∃ r ∈ db.conversations, r.id = cid) →
       createConversation db cid title u2 = .ok (db, none)) := by
  constructor
  · intro db cid u1 u2 h1 h2
    unfold getConversationOfUser
    by_cases hc : cid ≠ ""
    · rw [if_pos ⟨hc, h1⟩, if_pos ⟨hc, h2⟩]
    · rw [if_neg (fun h => hc h.1), if_neg (fun h => hc h.1)]
  · intro db cid title u2 h2 hc ⟨r, hr, hid⟩
    unfold createConversation
    have hfind : ∃ x, (db.conversations.find? fun r => r.id == cid) = some x := by
      have : (db.conversations.find? fun r => r.id == cid).isSome = true := by
        rw [List.find?_isSome]
        exact ⟨r, hr, by simp [hid]⟩
      exact Option.isSome_iff_exists.mp this
    obtain ⟨x, hx⟩ := hfind
    unfold getConversationOfUser
    rw [if_pos ⟨hc, h2⟩, hx]

/-- Witness for C10 on a one-row store owned by `USR_a`. -/
theorem get_conversation_owner_independent_witness :
    getConversationOfUser ⟨[⟨"C", some "USR_a", "t"⟩], []⟩ "C" (some "USR_a") =
      getConversationOfUser ⟨[⟨"C", some "USR_a", "t"⟩], []⟩ "C" (some "USR_b") ∧
    createConversation ⟨[⟨"C", some "USR_a", "t"⟩], []⟩ "C" "other title" (some "USR_b") =
      .ok (⟨[⟨"C", some "USR_a", "t"⟩], []⟩, none) :=
  ⟨get_conversation_owner_independent.1 ⟨[⟨"C", some "USR_a", "t"⟩], []⟩ "C"
     (some "USR_a") (some "USR_b") (by decide) (by decide),
   get_conversation_owner_independent.2 ⟨[⟨"C", some "USR_a", "t"⟩], []⟩ "C"
     "other title" (some "USR_b") (by decide) (by decide)
     ⟨⟨"C", some "USR_a", "t"⟩, by simp, rfl⟩⟩

end Store

namespace ConvMgmt

/-- The manager state of `src/conversation_management.py`: the optional
owner (`self.user_id`), the in-memory conversation listing snapshot
(`self.conversations`, refreshed from the store after each operation) and
the backing store (`self.db`). The JSON file-cache fields are legacy code
paths not exercised by the SQLite operations verified here. -/
structure Mgr where
  userId : Option String
  conversations : List Store.ConversationRow
  db : Store.DB
deriving DecidableEq, Repr

/-- The generated thread id `f"CNV_{uuid.uuid4().hex[:12]}"`; `uuidHex`
stands for the external random `uuid4().hex` (32 hex characters). -/
def genConversationId (uuidHex : String) : String := "CNV_" ++ uuidHex.take 12

/-- `create_conversation_thread(conversation_id=None)`: generate an id if
none is supplied; if the owner is truthy and the id is not in the
in-memory listing, delegate creation to the store; then refresh the
listing from the store and return the id. -/
def createConversationThread (m : Mgr) (conversationId? : Option String)
    (uuidHex : String) : Except String (Mgr × String) :=
  let conversationId := match conversationId? with
    | none => genConversationId uuidHex
    | some cid => cid
  if Store.truthy m.userId ∧
      ¬ m.conversations.any (fun r => r.id == conversationId) then
    match Store.createConversation m.db conversationId "" m.userId with
    | .ok (db', _) =>
      .ok ({ m with
             db := db'
             conversations := Store.getAllConversationsOfUser db' m.userId },
           conversationId)
    | .error e => .error e
  else
    .ok ({ m with
           conversations := Store.getAllConversationsOfUser m.db m.userId },
         conversationId)

/-- The body of `add_message` after the auto-create step: store the
message (the `try/except` around the store call only logs), and on a
`user` message set the title to `message[:100]` if the conversation is
found and its title is falsy.  Returns the resulting database and the new
position. -/
def addMessageCore (m1 : Mgr) (conversationId sender message : String)
    (msgId : String) : Store.DB × Nat :=
  let r := Store.addMessage m1.db conversationId sender message msgId
  let db3 :=
    if sender = "user" then
      match Store.getConversationOfUser r.1 conversationId m1.userId with
      | some convo =>
        if convo.title = "" then
          Store.updateTitle r.1 conversationId (message.take 100)
        else r.1
      | none => r.1
    else r.1
  (db3, r.2)

/-- `add_message(conversation_id, sender, message)`: auto-create the
thread when it is not in the in-memory listing, run `addMessageCore`, then
refresh the listing and return the position. -/
def addMessage (m : Mgr) (conversationId sender message : String)
    (msgId : String) : Except String (Mgr × Nat) :=
  let step1 : Except String Mgr :=
    if ¬ m.conversations.any (fun r => r.id == conversationId) then
      match createConversationThread m (some conversationId) "" with
      | .ok (m', _) => .ok m'
      | .error e => .error e
    else .ok m
  match step1 with
  | .error e => .error e
  | .ok m1 =>
    let c := addMessageCore m1 conversationId sender message msgId
    .ok ({ m1 with
           db := c.1
           conversations := Store.getAllConversationsOfUser c.1 m1.userId },
         c.2)

/-- The title of the first `conversations` row with the given id. -/
def titleOf (db : Store.DB) (conversationId : String) : Option String :=
  (db.conversations.find? fun r => r.id == conversationId).map fun r => r.title

theorem find?_retitle_self (X t : String) :
    ∀ l : List Store.ConversationRow,
      (l.find? fun r => r.id == X).isSome = true →
      (((l.map fun r => if r.id = X then { r with title := t } else r).find?
          fun r => r.id == X).map fun r => r.title) = some t := by
  intro l
  induction l with
  | nil => intro h; simp at h
  | cons r rest ih =>
    intro h
    by_cases hid : r.id = X
    · have hpred : ((if r.id = X then { r with title := t } else r :
          Store.ConversationRow).id == X) = true := by
        rw [if_pos hid]
        simpa using hid
      rw [List.map_cons, List.find?_cons, hpred]
      rw [if_pos hid]
      rfl
    · have hpred : ((if r.id = X then { r with title := t } else r :
          Store.ConversationRow).id == X) = false := by
        rw [if_neg hid]
        simpa using hid
      have hpred0 : (r.id == X) = false := by simpa using hid
      have h' : (rest.find? fun r => r.id == X).isSome = true := by
        rw [List.find?_cons, hpred0] at h
        exact h
      rw [List.map_cons, List.find?_cons, hpred]
      exact ih h'

theorem find?_retitle_other (cid2 t X : String) (hne : cid2 ≠ X) :
    ∀ l : List Store.ConversationRow,
      (((l.map fun r => if r.id = cid2 then { r with title := t } else r).find?
          fun r => r.id == X).map fun r => r.title) =
        ((l.find? fun r => r.id == X).map fun r => r.title) := by
  intro l
  induction l with
  | nil => simp
  | cons r rest ih =>
    by_cases hid : r.id = cid2
    · have hrx : (r.id == X) = false := by
        simp only [beq_eq_false_iff_ne, ne_eq, hid]
        exact hne
      have hpred : ((if r.id = cid2 then { r with title := t } else r :
          Store.ConversationRow).id == X) = false := by
        rw [if_pos hid]
        simpa [beq_eq_false_iff_ne, hid] using hne
      rw [List.map_cons, List.find?_cons, hpred, List.find?_cons, hrx]
      exact ih
    · by_cases hrx : r.id = X
      · have hp1 : ((if r.id = cid2 then { r with title := t } else r :
            Store.ConversationRow).id == X) = true := by
          rw [if_neg hid]
          simpa using hrx
        have hp2 : (r.id == X) = true := by simpa using hrx
        rw [List.map_cons, List.find?_cons, hp1, List.find?_cons, hp2]
        rw [if_neg hid]
      · have hp1 : ((if r.id = cid2 then { r with title := t } else r :
            Store.ConversationRow).id == X) = false := by
          rw [if_neg hid]
          simpa using hrx
        have hp2 : (r.id == X) = false := by simpa using hrx
        rw [List.map_cons, List.find?_cons, hp1, List.find?_cons, hp2]
        exact ih

theorem titleOf_updateTitle_self (db : Store.DB) (X t : String) (hX : X ≠ "")
    (h : (db.conversations.find? fun r => r.id == X).isSome = true) :
    titleOf (Store.updateTitle db X t) X = some t := by
  unfold titleOf Store.updateTitle
  rw [if_pos hX]
  exact find?_retitle_self X t db.conversations h

theorem titleOf_updateTitle_other (db : Store.DB) (cid2 t X : String)
    (hne : cid2 ≠ X) :
    titleOf (Store.updateTitle db cid2 t) X = titleOf db X := by
  unfold titleOf Store.updateTitle
  by_cases hc : cid2 ≠ ""
  · rw [if_pos hc]
    exact find?_retitle_other cid2 t X hne db.conversations
  · rw [if_neg hc]

theorem titleOf_append (db : Store.DB) (rows : List Store.ConversationRow)
    (X : String) (h : (titleOf db X).isSome = true) :
    titleOf ⟨db.conversations ++ rows, db.messages⟩ X = titleOf db X := by
  unfold titleOf at h ⊢
  rw [List.find?_append]
  cases hf : db.conversations.find? fun r => r.id == X with
  | none => rw [hf] at h; simp at h
  | some r => simp

/-- The store-level `add_message` leaves the conversations table alone. -/
theorem store_addMessage_conversations (db : Store.DB) (c s m id : String) :
    (Store.addMessage db c s m id).1.conversations = db.conversations := rfl

/-- `create_conversation_thread` with an explicit id neither deletes nor
retitles an existing conversation: any id whose title is visible before
the call has the same title after it. -/
theorem titleOf_createThread (m : Mgr) (cid2 hex X t : String)
    (ht : titleOf m.db X = some t) :
    ∀ m' cid', (createConversationThread m (some cid2) hex).toOption = some (m', cid') →
      titleOf m'.db X = some t ∧ m'.userId = m.userId := by
  intro m' cid' hok
  unfold createConversationThread at hok
  by_cases hg : Store.truthy m.userId = true ∧
      ¬ (m.conversations.any fun r => r.id == cid2) = true
  · rw [if_pos hg] at hok
    cases hcc : Store.createConversation m.db cid2 "" m.userId with
    | error e => rw [hcc] at hok; simp [Except.toOption] at hok
    | ok p =>
      obtain ⟨db', rid⟩ := p
      rw [hcc] at hok
      simp only [Except.toOption, Option.some.injEq, Prod.mk.injEq] at hok
      have hdb : m'.db = db' := by rw [← hok.1]
      have huid : m'.userId = m.userId := by rw [← hok.1]
      refine ⟨?_, huid⟩
      rw [hdb]
      unfold Store.createConversation at hcc
      cases hgo : Store.getConversationOfUser m.db cid2 m.userId with
      | some r =>
        rw [hgo] at hcc
        simp only [Except.ok.injEq, Prod.mk.injEq] at hcc
        rw [← hcc.1]
        exact ht
      | none =>
        rw [hgo] at hcc
        unfold Store.insertConversation at hcc
        by_cases hany : (m.db.conversations.any fun r => r.id == cid2) = true
        · rw [if_pos hany] at hcc
          simp at hcc
        · rw [if_neg hany] at hcc
          simp only [Except.ok.injEq, Prod.mk.injEq] at hcc
          rw [← hcc.1]
          have hsome : (titleOf m.db X).isSome = true := by rw [ht]; rfl
          exact (titleOf_append m.db [⟨cid2, m.userId, ""⟩] X hsome).trans ht
  · rw [if_neg hg] at hok
    simp only [Except.toOption, Option.some.injEq, Prod.mk.injEq] at hok
    rw [← hok.1]
    exact ⟨ht, rfl⟩

set_option maxRecDepth 8000 in
/-- Counterexample to C7 as stated: under owner `u1`, create a fresh
thread `X`; the first user message has empty body, so the title is set to
`""[:100] = ""`, which is still falsy — and the second user message then
changes the title to `"Something else"`, although the claim says no
`add_message` after the first user message changes the title. -/
theorem title_set_once_cex :
    (createConversationThread ⟨some "u1", [], Store.emptyDB⟩ (some "X") "").toOption =
      some (⟨some "u1", [⟨"X", some "u1", ""⟩], ⟨[⟨"X", some "u1", ""⟩], []⟩⟩, "X") ∧
    (addMessage ⟨some "u1", [⟨"X", some "u1", ""⟩], ⟨[⟨"X", some "u1", ""⟩], []⟩⟩
        "X" "user" "" "MSG_a").toOption =
      some (⟨some "u1", [⟨"X", some "u1", ""⟩],
            ⟨[⟨"X", some "u1", ""⟩], [⟨"MSG_a", "X", 1, "user", ""⟩]⟩⟩, 1) ∧
    ("" : String).take 100 = "" ∧
    titleOf (⟨[⟨"X", some "u1", ""⟩], [⟨"MSG_a", "X", 1, "user", ""⟩]⟩ : Store.DB) "X" =
      some "" ∧
    (addMessage ⟨some "u1", [⟨"X", some "u1", ""⟩],
        ⟨[⟨"X", some "u1", ""⟩], [⟨"MSG_a", "X", 1, "user", ""⟩]⟩⟩
        "X" "user" "Something else" "MSG_b").toOption =
      some (⟨some "u1", [⟨"X", some "u1", "Something else"⟩],
            ⟨[⟨"X", some "u1", "Something else"⟩],
             [⟨"MSG_a", "X", 1, "user", ""⟩,
              ⟨"MSG_b", "X", 2, "user", "Something else"⟩]⟩⟩, 2) ∧
    titleOf (⟨[⟨"X", some "u1", "Something else"⟩],
              [⟨"MSG_a", "X", 1, "user", ""⟩,
               ⟨"MSG_b", "X", 2, "user", "Something else"⟩]⟩ : Store.DB) "X" =
      some "Something else" := by
  refine ⟨by decide, by decide, by decide, by decide, by decide, by decide⟩

theorem addMessage_inversion (m : Mgr) (cid s b id : String) (m' : Mgr) (p : Nat)
    (hok : (addMessage m cid s b id).toOption = some (m', p)) :
    ∃ m1 : Mgr,
      ((m.conversations.any fun r => r.id == cid) = true ∧ m1 = m ∨
       ∃ cid', (createConversationThread m (some cid) "").toOption = some (m1, cid')) ∧
      m'.userId = m1.userId ∧
      m'.db = (addMessageCore m1 cid s b id).1 ∧
      p = (addMessageCore m1 cid s b id).2 := by
  unfold addMessage at hok
  by_cases hin : (m.conversations.any fun r => r.id == cid) = true
  · rw [if_neg (by simpa using hin)] at hok
    simp only [Except.toOption, Option.some.injEq, Prod.mk.injEq] at hok
    exact ⟨m, Or.inl ⟨hin, rfl⟩, by rw [← hok.1], by rw [← hok.1], hok.2.symm⟩
  · rw [if_pos (by simpa using hin)] at hok
    cases hct : createConversationThread m (some cid) "" with
    | error e =>
      rw [hct] at hok
      simp [Except.toOption] at hok
    | ok q =>
      obtain ⟨m1, cid'⟩ := q
      rw [hct] at hok
      simp only [Except.toOption, Option.some.injEq, Prod.mk.injEq] at hok
      exact ⟨m1, Or.inr ⟨cid', rfl⟩, by rw [← hok.1],
             by rw [← hok.1], hok.2.symm⟩

theorem addMessageCore_title_set (m1 : Mgr) (X body msgId : String)
    (hX : X ≠ "") (htr1 : Store.truthy m1.userId = true)
    (ht1 : titleOf m1.db X = some "") :
    titleOf (addMessageCore m1 X "user" body msgId).1 X = some (body.take 100) := by
  obtain ⟨row, hrow, hrowt⟩ : ∃ row,
      (m1.db.conversations.find? fun r => r.id == X) = some row ∧
        row.title = "" := by
    unfold titleOf at ht1
    cases hf : m1.db.conversations.find? fun r => r.id == X with
    | none => rw [hf] at ht1; simp at ht1
    | some r =>
      rw [hf] at ht1
      simp only [Option.map_some', Option.some.injEq] at ht1
      exact ⟨r, rfl, ht1⟩
  have hget : Store.getConversationOfUser
      (Store.addMessage m1.db X "user" body msgId).1 X m1.userId = some row := by
    unfold Store.getConversationOfUser
    rw [if_pos ⟨hX, htr1⟩, store_addMessage_conversations]
    exact hrow
  have hfs : ((Store.addMessage m1.db X "user" body msgId).1.conversations.find?
      fun r => r.id == X).isSome = true := by
    rw [store_addMessage_conversations, hrow]
    rfl
  show titleOf
      (if ("user" : String) = "user" then
        match Store.getConversationOfUser
            (Store.addMessage m1.db X "user" body msgId).1 X m1.userId with
        | some convo =>
          if convo.title = "" then
            Store.updateTitle (Store.addMessage m1.db X "user" body msgId).1 X
              (body.take 100)
          else (Store.addMessage m1.db X "user" body msgId).1
        | none => (Store.addMessage m1.db X "user" body msgId).1
      else (Store.addMessage m1.db X "user" body msgId).1) X = some (body.take 100)
  rw [if_pos rfl, hget]
  show titleOf
      (if row.title = "" then
        Store.updateTitle (Store.addMessage m1.db X "user" body msgId).1 X
          (body.take 100)
      else (Store.addMessage m1.db X "user" body msgId).1) X = some (body.take 100)
  rw [if_pos hrowt]
  exact titleOf_updateTitle_self _ X (body.take 100) hX hfs

theorem addMessageCore_title_keep (m1 : Mgr) (X t cid2 s2 b2 id2 : String)
    (ht1 : titleOf m1.db X = some t) (ht' : t ≠ "") :
    titleOf (addMessageCore m1 cid2 s2 b2 id2).1 X = some t := by
  have hconv : titleOf (Store.addMessage m1.db cid2 s2 b2 id2).1 X = some t := by
    unfold titleOf
    rw [store_addMessage_conversations]
    exact ht1
  show titleOf
      (if s2 = "user" then
        match Store.getConversationOfUser
            (Store.addMessage m1.db cid2 s2 b2 id2).1 cid2 m1.userId with
        | some convo =>
          if convo.title = "" then
            Store.updateTitle (Store.addMessage m1.db cid2 s2 b2 id2).1 cid2
              (b2.take 100)
          else (Store.addMessage m1.db cid2 s2 b2 id2).1
        | none => (Store.addMessage m1.db cid2 s2 b2 id2).1
      else (Store.addMessage m1.db cid2 s2 b2 id2).1) X = some t
  by_cases hsend : s2 = "user"
  · rw [if_pos hsend]
    cases hg : Store.getConversationOfUser
        (Store.addMessage m1.db cid2 s2 b2 id2).1 cid2 m1.userId with
    | none => exact hconv
    | some convo =>
      show titleOf
          (if convo.title = "" then
            Store.updateTitle (Store.addMessage m1.db cid2 s2 b2 id2).1 cid2
              (b2.take 100)
          else (Store.addMessage m1.db cid2 s2 b2 id2).1) X = some t
      by_cases hct : convo.title = ""
      · rw [if_pos hct]
        by_cases hcx : cid2 = X
        · exfalso
          subst hcx
          unfold Store.getConversationOfUser at hg
          by_cases hguard : cid2 ≠ "" ∧ Store.truthy m1.userId = true
          · rw [if_pos hguard, store_addMessage_conversations] at hg
            unfold titleOf at ht1
            rw [hg] at ht1
            simp only [Option.map_some', Option.some.injEq] at ht1
            exact ht' (ht1 ▸ hct)
          · rw [if_neg hguard] at hg
            cases hg
        · rw [titleOf_updateTitle_other _ cid2 _ X hcx]
          exact hconv
      · rw [if_neg hct]
        exact hconv
  · rw [if_neg hsend]
    exact hconv

/-- C7 (amended): for a thread whose title is unset (empty) under a
truthy owner, the first user message with a NON-EMPTY body sets the title
to its first 100 characters; and once the title is non-empty, no further
`add_message` call (any sender, any thread) changes it.  (With an empty
first body the title stays empty — i.e. unset — and a later user message
may still set it; with a null owner the title is never set at all.) -/
theorem title_set_once_amended :
    (∀ (m : Mgr) (u X body msgId : String),
       m.userId = some u → u ≠ "" → X ≠ "" → body ≠ "" →
       titleOf m.db X = some "" →
       ∀ m' p, (addMessage m X "user" body msgId).toOption = some (m', p) →
         titleOf m'.db X = some (body.take 100)) ∧
    (∀ (m : Mgr) (X t cid2 s2 b2 id2 : String),
       titleOf m.db X = some t → t ≠ "" →
       ∀ m' p, (addMessage m cid2 s2 b2 id2).toOption = some (m', p) →
         titleOf m'.db X = some t) := by
  constructor
  · intro m u X body msgId hu hu' hX _hbody ht m' p hok
    obtain ⟨m1, hstep, huid, hdb, _⟩ := addMessage_inversion m X "user" body msgId m' p hok
    have hm1 : titleOf m1.db X = some "" ∧ m1.userId = m.userId := by
      rcases hstep with ⟨_, rfl⟩ | ⟨cid', hct⟩
      · exact ⟨ht, rfl⟩
      · exact titleOf_createThread m X "" X "" ht m1 cid' hct
    have htr1 : Store.truthy m1.userId = true := by
      rw [hm1.2, hu]
      simpa [Store.truthy] using hu'
    rw [hdb]
    exact addMessageCore_title_set m1 X body msgId hX htr1 hm1.1
  · intro m X t cid2 s2 b2 id2 ht ht' m' p hok
    obtain ⟨m1, hstep, _, hdb, _⟩ := addMessage_inversion m cid2 s2 b2 id2 m' p hok
    have ht1 : titleOf m1.db X = some t := by
      rcases hstep with ⟨_, rfl⟩ | ⟨cid', hct⟩
      · exact ht
      · exact (titleOf_createThread m cid2 "" X t ht m1 cid' hct).1
    rw [hdb]
    exact addMessageCore_title_keep m1 X t cid2 s2 b2 id2 ht1 ht'

/-- Witness for the amended C7: setting the title from a non-empty first
user message, then keeping it across a second user message. -/
theorem title_set_once_amended_witness :
    titleOf (⟨[⟨"X", some "u1", ""⟩], []⟩ : Store.DB) "X" = some "" ∧
    (∀ m' p, (addMessage ⟨some "u1", [⟨"X", some "u1", ""⟩], ⟨[⟨"X", some "u1", ""⟩], []⟩⟩
        "X" "user" "Hello there" "MSG_a").toOption = some (m', p) →
      titleOf m'.db "X" = some ("Hello there".take 100)) ∧
    (∀ m' p, (addMessage ⟨some "u1", [⟨"X", some "u1", "Hello there"⟩],
          ⟨[⟨"X", some "u1", "Hello there"⟩],
           [⟨"MSG_a", "X", 1, "user", "Hello there"⟩]⟩⟩
        "X" "user" "Something else" "MSG_b").toOption = some (m', p) →
      titleOf m'.db "X" = some "Hello there") :=
  ⟨by decide,
   fun m' p h => title_set_once_amended.1
     ⟨some "u1", [⟨"X", some "u1", ""⟩], ⟨[⟨"X", some "u1", ""⟩], []⟩⟩
     "u1" "X" "Hello there" "MSG_a" rfl (by decide) (by decide) (by decide)
     (by decide) m' p h,
   fun m' p h => title_set_once_amended.2
     ⟨some "u1", [⟨"X", some "u1", "Hello there"⟩],
      ⟨[⟨"X", some "u1", "Hello there"⟩],
       [⟨"MSG_a", "X", 1, "user", "Hello there"⟩]⟩⟩
     "X" "Hello there" "X" "user" "Something else" "MSG_b" (by decide) (by decide)
     m' p h⟩

theorem mem_getAll (db : Store.DB) (uid : Option String)
    (r : Store.ConversationRow) :
    r ∈ Store.getAllConversationsOfUser db uid → r ∈ db.conversations := by
  unfold Store.getAllConversationsOfUser
  by_cases h : Store.truthy uid = true
  · rw [if_pos h]
    exact fun hr => (List.mem_filter.mp hr).1
  · rw [if_neg h]
    exact id

theorem createThread_existing (m : Mgr) (X : String) (hX : X ≠ "")
    (htr : Store.truthy m.userId = true)
    (hexist : ∃ r ∈ m.db.conversations, r.id = X) :
    ∃ m', (createConversationThread m (some X) "").toOption = some (m', X) ∧
      m'.db = m.db ∧ m'.userId = m.userId := by
  unfold createConversationThread
  by_cases hg : Store.truthy m.userId = true ∧
      ¬ (m.conversations.any fun r => r.id == X) = true
  · rw [if_pos hg]
    have hfs : ((m.db.conversations.find? fun r => r.id == X)).isSome = true := by
      rw [List.find?_isSome]
      obtain ⟨r, hr, hid⟩ := hexist
      exact ⟨r, hr, by simp [hid]⟩
    obtain ⟨x, hx⟩ := Option.isSome_iff_exists.mp hfs
    have hgo : Store.getConversationOfUser m.db X m.userId = some x := by
      unfold Store.getConversationOfUser
      rw [if_pos ⟨hX, htr⟩, hx]
    unfold Store.createConversation
    rw [hgo]
    exact ⟨_, rfl, rfl, rfl⟩
  · rw [if_neg hg]
    exact ⟨_, rfl, rfl, rfl⟩

theorem createThread_fresh (m : Mgr) (X u : String)
    (hu : m.userId = some u) (hu' : u ≠ "") (hX : X ≠ "")
    (hsnap : m.conversations = Store.getAllConversationsOfUser m.db m.userId)
    (hfresh : ∀ r ∈ m.db.conversations, r.id ≠ X) :
    (createConversationThread m (some X) "").toOption =
      some ({ m with
              db := ⟨m.db.conversations ++ [⟨X, m.userId, ""⟩], m.db.messages⟩
              conversations := Store.getAllConversationsOfUser
                ⟨m.db.conversations ++ [⟨X, m.userId, ""⟩], m.db.messages⟩
                m.userId }, X) := by
  have htr : Store.truthy m.userId = true := by
    rw [hu]
    simpa [Store.truthy] using hu'
  have hany0 : (m.conversations.any fun r => r.id == X) = false := by
    cases h : m.conversations.any fun r => r.id == X with
    | false => rfl
    | true =>
      obtain ⟨r, hr, hid⟩ := List.any_eq_true.mp h
      rw [hsnap] at hr
      exact absurd (by simpa using hid) (hfresh r (mem_getAll m.db m.userId r hr))
  have hfind : (m.db.conversations.find? fun r => r.id == X) = none := by
    rw [List.find?_eq_none]
    intro r hr
    simpa using hfresh r hr
  have hanyDb : ¬ (m.db.conversations.any fun r => r.id == X) = true := by
    intro h
    obtain ⟨r, hr, hid⟩ := List.any_eq_true.mp h
    exact absurd (by simpa using hid) (hfresh r hr)
  unfold createConversationThread
  rw [if_pos ⟨htr, by simp [hany0]⟩]
  unfold Store.createConversation Store.getConversationOfUser
  rw [if_pos ⟨hX, htr⟩, hfind]
  unfold Store.insertConversation
  rw [if_neg hanyDb]
  rfl

/-- C8 (amended): creating a thread twice with the same explicit id under
the same truthy owner returns that id both times and leaves exactly one
`conversations` row with that id; when no id is supplied the generated id
has the form `CNV_` followed by the first 12 characters of the random
uuid hex (not a bare 12-hex-character string). -/
theorem create_thread_idempotent :
    (∀ (m : Mgr) (X u : String),
       m.userId = some u → u ≠ "" → X ≠ "" →
       m.conversations = Store.getAllConversationsOfUser m.db m.userId →
       (m.db.conversations.countP fun r => r.id == X) ≤ 1 →
       ∃ m1 m2,
         (createConversationThread m (some X) "").toOption = some (m1, X) ∧
         (createConversationThread m1 (some X) "").toOption = some (m2, X) ∧
         (m2.db.conversations.countP fun r => r.id == X) = 1) ∧
    (∀ (m : Mgr) (uuidHex : String),
       ∃ m', (createConversationThread m none uuidHex).toOption =
         some (m', "CNV_" ++ uuidHex.take 12)) := by
  constructor
  · intro m X u hu hu' hX hsnap hcount
    have htr : Store.truthy m.userId = true := by
      rw [hu]
      simpa [Store.truthy] using hu'
    by_cases hinDb : ∃ r ∈ m.db.conversations, r.id = X
    · obtain ⟨m1, h1, hdb1, huid1⟩ := createThread_existing m X hX htr hinDb
      have htr1 : Store.truthy m1.userId = true := by rw [huid1]; exact htr
      have hinDb1 : ∃ r ∈ m1.db.conversations, r.id = X := by rw [hdb1]; exact hinDb
      obtain ⟨m2, h2, hdb2, _⟩ := createThread_existing m1 X hX htr1 hinDb1
      refine ⟨m1, m2, h1, h2, ?_⟩
      rw [hdb2, hdb1]
      have hpos : 0 < (m.db.conversations.countP fun r => r.id == X) := by
        rw [List.countP_pos_iff]
        obtain ⟨r, hr, hid⟩ := hinDb
        exact ⟨r, hr, by simp [hid]⟩
      omega
    · push_neg at hinDb
      have h1 := createThread_fresh m X u hu hu' hX hsnap hinDb
      have hc0 : (m.db.conversations.countP fun r => r.id == X) = 0 := by
        rw [List.countP_eq_zero]
        intro r hr
        simpa using hinDb r hr
      have hm1ex : ∃ r ∈ (⟨m.db.conversations ++ [⟨X, m.userId, ""⟩],
          m.db.messages⟩ : Store.DB).conversations, r.id = X :=
        ⟨⟨X, m.userId, ""⟩,
         List.mem_append_right _ (List.mem_singleton_self _), rfl⟩
      obtain ⟨m2, h2, hdb2, _⟩ := createThread_existing
        ({ m with
           db := ⟨m.db.conversations ++ [⟨X, m.userId, ""⟩], m.db.messages⟩
           conversations := Store.getAllConversationsOfUser
             ⟨m.db.conversations ++ [⟨X, m.userId, ""⟩], m.db.messages⟩
             m.userId }) X hX htr hm1ex
      refine ⟨_, m2, h1, h2, ?_⟩
      rw [hdb2]
      show ((m.db.conversations ++ [(⟨X, m.userId, ""⟩ : Store.ConversationRow)]).countP
        fun r => r.id == X) = 1
      rw [List.countP_append, hc0]
      simp
  · intro m uuidHex
    have hcid : genConversationId uuidHex ≠ "" := by
      unfold genConversationId
      intro h
      have hlen := congrArg String.length h
      rw [String.length_append] at hlen
      have h4 : ("CNV_" : String).length = 4 := rfl
      rw [h4] at hlen
      simp at hlen
    unfold createConversationThread
    by_cases hg : Store.truthy m.userId = true ∧
        ¬ (m.conversations.any fun r => r.id == genConversationId uuidHex) = true
    · rw [if_pos hg]
      cases hgo : Store.getConversationOfUser m.db (genConversationId uuidHex)
          m.userId with
      | some r =>
        unfold Store.createConversation
        rw [hgo]
        exact ⟨_, rfl⟩
      | none =>
        have hanyDb : ¬ (m.db.conversations.any
            fun r => r.id == genConversationId uuidHex) = true := by
          intro h
          obtain ⟨r, hr, hid⟩ := List.any_eq_true.mp h
          unfold Store.getConversationOfUser at hgo
          rw [if_pos ⟨hcid, hg.1⟩] at hgo
          exact absurd hid (by simpa using List.find?_eq_none.mp hgo r hr)
        unfold Store.createConversation
        rw [hgo]
        unfold Store.insertConversation
        rw [if_neg hanyDb]
        exact ⟨_, rfl⟩
    · rw [if_neg hg]
      exact ⟨_, rfl⟩

/-- Witness for the amended C8 on an empty store. -/
theorem create_thread_idempotent_witness :
    (∃ m1 m2,
      (createConversationThread ⟨some "u1", [], Store.emptyDB⟩ (some "X") "").toOption =
        some (m1, "X") ∧
      (createConversationThread m1 (some "X") "").toOption = some (m2, "X") ∧
      (m2.db.conversations.countP fun r => r.id == "X") = 1) ∧
    (∃ m', (createConversationThread ⟨some "u1", [], Store.emptyDB⟩ none
        "9f86d081884c7d659a2feaa0c55ad015").toOption =
      some (m', "CNV_" ++ ("9f86d081884c7d659a2feaa0c55ad015" : String).take 12)) :=
  ⟨create_thread_idempotent.1 ⟨some "u1", [], Store.emptyDB⟩ "X" "u1" rfl
     (by decide) (by decide) (by decide) (by decide),
   create_thread_idempotent.2 ⟨some "u1", [], Store.emptyDB⟩
     "9f86d081884c7d659a2feaa0c55ad015"⟩

/-- An ASCII hexadecimal digit. -/
def isHexDigit (c : Char) : Bool :=
  c.isDigit || ('a' ≤ c && c ≤ 'f') || ('A' ≤ c && c ≤ 'F')

/-- Counterexample to C8 as stated: the id generated for a fresh thread is
`CNV_` followed by 12 hex characters — a 16-character string containing
non-hex characters — not an id "of the form `<random 12 hex chars>`". -/
theorem thread_id_form_cex :
    genConversationId "9f86d081884c7d659a2feaa0c55ad015" = "CNV_9f86d081884c" ∧
    ¬ (("CNV_9f86d081884c" : String).length = 12 ∧
       ("CNV_9f86d081884c" : String).data.all isHexDigit = true) := by
  refine ⟨by decide, by decide⟩

end ConvMgmt

namespace Sessions

/-- `SESSION_TIMEOUT = 60 * 60` from `src/config.py`. -/
def SESSION_TIMEOUT : Nat := 60 * 60

/-- A row of the sessions table: `token (opaque, unique), user_id,
expires_at (absolute epoch seconds)`. -/
structure SessionRow where
  token : String
  userId : String
  expiresAt : Nat
deriving DecidableEq, Repr

/-- The state `validate_sessions` acts on: the sessions table plus the
Streamlit session-state fields `session_token` and `user_id` and the
`session_token` cookie (values are `none` when unset, matching the
defaults written by `_initialize_sessions`). -/
structure SessState where
  sessions : List SessionRow
  stateToken : Option String
  stateUserId : Option String
  cookieToken : Option String
deriving DecidableEq, Repr

/-- Modelled from the spec: `find_session(token) ->
Option<{user_id, expires_at}>` — the SQLite helper
`find_valid_session_by_token` called by `validate_sessions` is absent from
the source tree; the spec specifies it as a plain lookup of the session
row by token. -/
def findValidSessionByToken (st : SessState) (token : String) :
    Option SessionRow :=
  st.sessions.find? fun r => r.token == token

/-- Modelled from the spec: `delete_session(token)` — the SQLite helper is
absent from the source tree; the spec specifies it as deleting the session
row for the token. -/
def deleteSession (st : SessState) (token : String) : SessState :=
  { st with sessions := st.sessions.filter fun r => ¬ r.token = token }

/-- Modelled from the spec: `extend_session(token, new_expiry)` — the
SQLite helper `update_session_expiry` is absent from the source tree; the
spec specifies it as writing the new absolute expiry for the token. -/
def updateSessionExpiry (st : SessState) (token : String)
    (newExpires : Nat) : SessState :=
  { st with sessions := st.sessions.map fun r =>
      if r.token = token then { r with expiresAt := newExpires } else r }

/-- `logout_current_session`: delete the row of the REMEMBERED
session-state token (if truthy), clear the in-memory token and user id,
and drop the cookie. -/
def logoutCurrentSession (st : SessState) : SessState :=
  let st1 := match st.stateToken with
    | some t => if t ≠ "" then deleteSession st t else st
    | none => st
  { st1 with
    stateToken := none
    stateUserId := none
    cookieToken := none }

/-- `_refresh_session(token)`: `expires_at := now + SESSION_TIMEOUT`. -/
def refreshSession (st : SessState) (token : String) (now : Nat) : SessState :=
  updateSessionExpiry st token (now + SESSION_TIMEOUT)

/-- `validate_sessions(token)`: for a truthy token, look the session up;
if found and `now < expires_at`, refresh the expiry, rewrite the cookie,
record the user id and return `True`; otherwise run
`logout_current_session` and return `False`.  A falsy token falls through
and returns `None` (modelled by `none`). -/
def validateSessions (st : SessState) (now : Nat) (token : Option String) :
    SessState × Option Bool :=
  match token with
  | none => (st, none)
  | some t =>
    if t ≠ "" then
      match findValidSessionByToken st t with
      | some row =>
        if now < row.expiresAt then
          ({ refreshSession st t now with
             cookieToken := some t
             stateUserId := some row.userId }, some true)
        else (logoutCurrentSession st, some false)
      | none => (logoutCurrentSession st, some false)
    else (st, none)

/-- Counterexample to C9 as stated: validate the expired token `"T"`
(`now = expires_at = 100`) in a state whose remembered session-state token
is unset (the state of a fresh page load).  Validation returns false, but
`logout_current_session` deletes the row of the REMEMBERED token — here
none — so the expired token's row still exists, although the claim says
the expired token's row no longer exists after the failed validation. -/
theorem validate_expired_row_not_deleted_cex :
    (validateSessions ⟨[⟨"T", "u", 100⟩], none, none, some "T"⟩ 100 (some "T")).2 =
      some false ∧
    (validateSessions ⟨[⟨"T", "u", 100⟩], none, none, some "T"⟩ 100 (some "T")).1.sessions =
      [⟨"T", "u", 100⟩] := by
  refine ⟨by decide, by decide⟩

/-- C9 (amended): for a truthy token, a live session (`now < expires_at`)
is renewed to `now + SESSION_TIMEOUT` (3600 s) and validation returns
true; an absent or expired (`now ≥ expires_at`) session makes validation
return false and delete the row of the remembered session-state token —
which is the validated token's row only when the session state already
holds that token, and nothing otherwise; a falsy token returns `None` and
leaves the store untouched. -/
theorem validate_sessions_spec :
    SESSION_TIMEOUT = 3600 ∧
    (∀ (st : SessState) (now : Nat) (t : String) (row : SessionRow),
       t ≠ "" → findValidSessionByToken st t = some row → now < row.expiresAt →
       validateSessions st now (some t) =
         ({ updateSessionExpiry st t (now + SESSION_TIMEOUT) with
            cookieToken := some t
            stateUserId := some row.userId }, some true)) ∧
    (∀ (st : SessState) (now : Nat) (t : String),
       t ≠ "" →
       (∀ row, findValidSessionByToken st t = some row → row.expiresAt ≤ now) →
       validateSessions st now (some t) = (logoutCurrentSession st, some false)) ∧
    (∀ (st : SessState) (now : Nat) (token : Option String),
       Store.truthy token = false →
       validateSessions st now token = (st, none)) ∧
    (∀ (st : SessState) (t : String), st.stateToken = some t → t ≠ "" →
       (logoutCurrentSession st).sessions = (deleteSession st t).sessions) ∧
    (∀ st : SessState, st.stateToken = none →
       (logoutCurrentSession st).sessions = st.sessions) := by
  refine ⟨rfl, ?_, ?_, ?_, ?_, ?_⟩
  · intro st now t row ht hfind hlive
    simp only [validateSessions]
    rw [if_pos ht]
    simp only [hfind]
    rw [if_pos hlive]
    rfl
  · intro st now t ht hexp
    simp only [validateSessions]
    rw [if_pos ht]
    cases hfind : findValidSessionByToken st t with
    | none => simp only [hfind]
    | some row =>
      simp only [hfind]
      rw [if_neg (by have := hexp row hfind; omega)]
  · intro st now token htok
    cases token with
    | none => rfl
    | some t =>
      simp only [validateSessions]
      rw [if_neg (by simpa [Store.truthy] using htok)]
  · intro st t hst ht
    unfold logoutCurrentSession
    rw [hst]
    show (if t ≠ "" then deleteSession st t else st).sessions =
      (deleteSession st t).sessions
    rw [if_pos ht]
  · intro st hst
    unfold logoutCurrentSession
    rw [hst]

/-- Witness for the amended C9: a live session at `now = 50` with expiry
100 is renewed to 3650 and validates true; validating the expired token
at `now = 100` with the state token set deletes the row. -/
theorem validate_sessions_spec_witness :
    validateSessions ⟨[⟨"T", "u", 100⟩], some "T", some "u", some "T"⟩ 50 (some "T") =
      ({ updateSessionExpiry ⟨[⟨"T", "u", 100⟩], some "T", some "u", some "T"⟩ "T"
           (50 + SESSION_TIMEOUT) with
         cookieToken := some "T"
         stateUserId := some "u" }, some true) ∧
    validateSessions ⟨[⟨"T", "u", 100⟩], some "T", some "u", some "T"⟩ 100 (some "T") =
      (logoutCurrentSession ⟨[⟨"T", "u", 100⟩], some "T", some "u", some "T"⟩,
       some false) ∧
    (logoutCurrentSession ⟨[⟨"T", "u", 100⟩], some "T", some "u", some "T"⟩).sessions =
      (deleteSession ⟨[⟨"T", "u", 100⟩], some "T", some "u", some "T"⟩ "T").sessions :=
  ⟨validate_sessions_spec.2.1 ⟨[⟨"T", "u", 100⟩], some "T", some "u", some "T"⟩ 50 "T"
     ⟨"T", "u", 100⟩ (by decide) (by decide) (by decide),
   validate_sessions_spec.2.2.1 ⟨[⟨"T", "u", 100⟩], some "T", some "u", some "T"⟩ 100 "T"
     (by decide) (fun row h => by
       have hcalc : findValidSessionByToken
           ⟨[⟨"T", "u", 100⟩], some "T", some "u", some "T"⟩ "T" =
           some ⟨"T", "u", 100⟩ := by decide
       rw [hcalc] at h
       cases h
       exact Nat.le_refl 100),
   validate_sessions_spec.2.2.2.2.1 ⟨[⟨"T", "u", 100⟩], some "T", some "u", some "T"⟩
     "T" rfl (by decide)⟩

end Sessions

namespace ChatUI

/-- The dictionary returned by `generate_response_suggestions` (the fields
the chat tab consumes). -/
structure SuggestOut where
  suggestions : List String
  sourceDocuments : List SourceDoc
deriving DecidableEq, Repr

/-- The dictionary returned by `rag.query`. -/
structure QueryOut where
  answer : String
  sourceDocuments : List SourceDoc
deriving DecidableEq, Repr

/-- The dictionary returned by `find_similar_question`. -/
structure CachedHit where
  answer : String
  sourceDocuments : List SourceDoc
  similarity : ℚ
  originalQuestion : String
deriving DecidableEq, Repr

/-- The `result` dictionary the chat tab builds before rendering. -/
structure GenResult where
  suggestions : List String
  sourceDocuments : List SourceDoc
  cached : Bool
  originalQuestion : Option String
deriving DecidableEq, Repr

/-- What one pass of the generation section did: the `result` value (or
`none` for a terminal `st.stop()`), the `(question, conversation_context)`
argument pairs of the `generate_response_suggestions` and `rag.query`
calls issued, and the `(question, answer)` pairs written through
`cache_answer`. -/
structure GenLog where
  result : Option GenResult
  suggestArgs : List (String × String)
  queryArgs : List (String × String)
  cacheWrites : List (String × String)
deriving DecidableEq, Repr

/-- `GenLog` extended with the `conversation_manager.add_message` calls of
the whole pass, as `(sender, body)` pairs. -/
structure RunLog where
  result : Option GenResult
  suggestArgs : List (String × String)
  queryArgs : List (String × String)
  cacheWrites : List (String × String)
  threadAppends : List (String × String)
deriving DecidableEq, Repr

/-- The per-pass inputs of `render_chat_tab`'s generation section:
session-state flags (`use_cache`, `regenerate_response`, the pending
selected response) and oracles for the external calls — the
`find_similar_question` result and the outcomes of
`generate_response_suggestions` (`suggestO`) and `rag.query` (`queryO`);
the latter two are deterministic within one pass (the same call in one
Streamlit run returns the same outcome). -/
structure UIInputs where
  useCache : Bool
  regenerate : Bool
  cachedHit : Option CachedHit
  suggestO : Except String SuggestOut
  queryO : Except String QueryOut
  selectedIdx : Option Nat
  selectedResponse : Option String

/-- The `except` handler shared by both generation branches
(`chat.py` lines 360–377 and 404–421): call `rag.query` once; a non-empty
answer is wrapped as `{"suggestions": [answer], ..., "cached": False}`; a
raise or an empty answer leads to `st.stop()` (modelled by `none`). -/
def fallbackQuery (queryO : Except String QueryOut) : Option GenResult :=
  match queryO with
  | .ok q =>
    if q.answer ≠ "" then some ⟨[q.answer], q.sourceDocuments, false, none⟩
    else none
  | .error _ => none

/-- The `try`/`except` generation block (`chat.py` lines 336–377, and its
duplicate 385–421 with `withCacheWrite = false`): call
`generate_response_suggestions` once; on empty suggestions fall back to
`rag.query` inside the `try` (a raise or empty answer there re-raises into
the `except` handler, which calls `rag.query` again); on success,
`cache_answer` records the first suggestion (cache branch only) and
`cached` is set to `False`; on a raise the `except` handler runs. -/
def tryGenerate (prompt ctx : String) (suggestO : Except String SuggestOut)
    (queryO : Except String QueryOut) (withCacheWrite : Bool) : GenLog :=
  match suggestO with
  | .ok r =>
    if r.suggestions = [] then
      match queryO with
      | .ok q =>
        if q.answer ≠ "" then
          { result := some ⟨[q.answer], q.sourceDocuments, false, none⟩
            suggestArgs := [(prompt, ctx)]
            queryArgs := [(prompt, ctx)]
            cacheWrites := if withCacheWrite then [(prompt, q.answer)] else [] }
        else
          { result := fallbackQuery queryO
            suggestArgs := [(prompt, ctx)]
            queryArgs := [(prompt, ctx), (prompt, ctx)]
            cacheWrites := [] }
      | .error _ =>
        { result := fallbackQuery queryO
          suggestArgs := [(prompt, ctx)]
          queryArgs := [(prompt, ctx), (prompt, ctx)]
          cacheWrites := [] }
    else
      { result := some ⟨r.suggestions, r.sourceDocuments, false, none⟩
        suggestArgs := [(prompt, ctx)]
        queryArgs := []
        cacheWrites :=
          if withCacheWrite then [(prompt, r.suggestions.headD "")] else [] }
  | .error _ =>
    { result := fallbackQuery queryO
      suggestArgs := [(prompt, ctx)]
      queryArgs := [(prompt, ctx)]
      cacheWrites := [] }

/-- The generation section (`chat.py` lines 313–421): when the cache is
enabled and no regeneration was requested, a cached hit with similarity
`≥ 0.9` is used directly (`cached = True`); otherwise the generation block
runs — writing the cache only in the cache-enabled branch. -/
def generateSection (inp : UIInputs) (prompt ctx : String) : GenLog :=
  if inp.useCache && !inp.regenerate then
    match inp.cachedHit with
    | some c =>
      if (9 : ℚ)/10 ≤ c.similarity then
        { result := some ⟨[c.answer], c.sourceDocuments, true, some c.originalQuestion⟩
          suggestArgs := []
          queryArgs := []
          cacheWrites := [] }
      else tryGenerate prompt ctx inp.suggestO inp.queryO true
    | none => tryGenerate prompt ctx inp.suggestO inp.queryO true
  else tryGenerate prompt ctx inp.suggestO inp.queryO false

/-- The selection block (`chat.py` lines 507–529): with both a selected
response and a selected index pending (and truthy), the selected text is
appended as the assistant turn after the user message; otherwise only the
user message was appended this pass. -/
def selectionAppends (inp : UIInputs) (userMessage : String) :
    List (String × String) :=
  match inp.selectedResponse, inp.selectedIdx with
  | some sel, some idx =>
    if sel ≠ "" ∧ idx ≠ 0 then [("user", userMessage), ("assistant", sel)]
    else [("user", userMessage)]
  | _, _ => [("user", userMessage)]

/-- One pass over a submitted prompt (`chat.py` lines 285–456 and
507–529): the user message is appended to the thread BEFORE generation is
attempted; after the generation section, an empty suggestion list
triggers one more `rag.query` fallback whose non-empty answer is appended
as the assistant turn; otherwise the suggestions are rendered and a
pending selected response (truthy text and index) is appended as the
assistant turn.  A `none` generation result is `st.stop()` — the pass
ends with only the user message appended. -/
def processPrompt (inp : UIInputs) (prompt userMessage ctx : String) : RunLog :=
  let gen := generateSection inp prompt ctx
  match gen.result with
  | none =>
    ⟨none, gen.suggestArgs, gen.queryArgs, gen.cacheWrites,
     [("user", userMessage)]⟩
  | some res =>
    if res.suggestions = [] then
      match inp.queryO with
      | .ok q =>
        if q.answer ≠ "" then
          ⟨some res, gen.suggestArgs, gen.queryArgs ++ [(prompt, ctx)],
           gen.cacheWrites, [("user", userMessage), ("assistant", q.answer)]⟩
        else
          ⟨some res, gen.suggestArgs, gen.queryArgs ++ [(prompt, ctx)],
           gen.cacheWrites, [("user", userMessage)]⟩
      | .error _ =>
        ⟨some res, gen.suggestArgs, gen.queryArgs ++ [(prompt, ctx)],
         gen.cacheWrites, [("user", userMessage)]⟩
    else
      ⟨some res, gen.suggestArgs, gen.queryArgs, gen.cacheWrites,
       selectionAppends inp userMessage⟩

/-- Whether the pass is served from the cache (similarity ≥ 0.9, cache
enabled, no regeneration requested), i.e. `suggest` is never invoked. -/
def cacheHitTaken (inp : UIInputs) : Bool :=
  inp.useCache && !inp.regenerate &&
    (match inp.cachedHit with
     | some c => decide ((9 : ℚ)/10 ≤ c.similarity)
     | none => false)

theorem generateSection_no_hit (inp : UIInputs) (prompt ctx : String)
    (hnc : cacheHitTaken inp = false) :
    generateSection inp prompt ctx =
      tryGenerate prompt ctx inp.suggestO inp.queryO
        (inp.useCache && !inp.regenerate) := by
  unfold generateSection
  by_cases hb : (inp.useCache && !inp.regenerate) = true
  · rw [if_pos hb, hb]
    cases hch : inp.cachedHit with
    | none => rfl
    | some c =>
      have hsim : ¬ (9 : ℚ)/10 ≤ c.similarity := by
        intro hle
        unfold cacheHitTaken at hnc
        rw [hb, hch] at hnc
        simp [hle] at hnc
      simp only [if_neg hsim]
  · rw [if_neg hb]
    have : (inp.useCache && !inp.regenerate) = false :=
      Bool.not_eq_true _ ▸ hb
    rw [this]

theorem processPrompt_nonempty (inp : UIInputs) (prompt userMessage ctx : String)
    (g : GenLog) (res : GenResult)
    (hgen : generateSection inp prompt ctx = g)
    (hres : g.result = some res) (hne : ¬ res.suggestions = []) :
    (processPrompt inp prompt userMessage ctx).result = some res ∧
    (processPrompt inp prompt userMessage ctx).suggestArgs = g.suggestArgs ∧
    (processPrompt inp prompt userMessage ctx).queryArgs = g.queryArgs := by
  unfold processPrompt
  rw [hgen]
  simp only [hres]
  rw [if_neg hne]
  exact ⟨rfl, rfl, rfl⟩

/-- C2: if `generate_response_suggestions` raises (and the pass is not
served from the cache), `rag.query` is invoked exactly once with the same
question and conversation context; a non-empty answer is wrapped as a
one-element suggestion list with `cached = false`; if the fallback also
raises, the pass ends in a terminal failure with no assistant message
appended to the thread and no further retry, while the user's message —
appended before generation was attempted — remains recorded. -/
theorem chat_fallback_chain (inp : UIInputs) (prompt userMessage ctx : String)
    (hnc : cacheHitTaken inp = false) (e : String)
    (hs : inp.suggestO = .error e) :
    (processPrompt inp prompt userMessage ctx).suggestArgs = [(prompt, ctx)] ∧
    (∀ e2, inp.queryO = .error e2 →
       processPrompt inp prompt userMessage ctx =
         ⟨none, [(prompt, ctx)], [(prompt, ctx)], [],
          [("user", userMessage)]⟩) ∧
    (∀ q, inp.queryO = .ok q → q.answer ≠ "" →
       (processPrompt inp prompt userMessage ctx).queryArgs = [(prompt, ctx)] ∧
       (processPrompt inp prompt userMessage ctx).result =
         some ⟨[q.answer], q.sourceDocuments, false, none⟩) := by
  have hgen : generateSection inp prompt ctx =
      tryGenerate prompt ctx inp.suggestO inp.queryO
        (inp.useCache && !inp.regenerate) :=
    generateSection_no_hit inp prompt ctx hnc
  have hg2 : tryGenerate prompt ctx inp.suggestO inp.queryO
      (inp.useCache && !inp.regenerate) =
      ⟨fallbackQuery inp.queryO, [(prompt, ctx)], [(prompt, ctx)], []⟩ := by
    rw [hs]
    rfl
  have hgen2 : generateSection inp prompt ctx =
      ⟨fallbackQuery inp.queryO, [(prompt, ctx)], [(prompt, ctx)], []⟩ :=
    hgen.trans hg2
  refine ⟨?_, ?_, ?_⟩
  · cases hq : inp.queryO with
    | error e2 =>
      have hrun : processPrompt inp prompt userMessage ctx =
          ⟨none, [(prompt, ctx)], [(prompt, ctx)], [], [("user", userMessage)]⟩ := by
        unfold processPrompt
        rw [hgen2, hq]
        rfl
      rw [hrun]
    | ok q =>
      by_cases hans : q.answer ≠ ""
      · have hfb : fallbackQuery inp.queryO =
            some ⟨[q.answer], q.sourceDocuments, false, none⟩ := by
          rw [hq]
          simp only [fallbackQuery]
          rw [if_pos hans]
        have h3 := processPrompt_nonempty inp prompt userMessage ctx
          ⟨fallbackQuery inp.queryO, [(prompt, ctx)], [(prompt, ctx)], []⟩
          ⟨[q.answer], q.sourceDocuments, false, none⟩ hgen2 hfb (by simp)
        rw [h3.2.1]
      · have hfb : fallbackQuery inp.queryO = none := by
          rw [hq]
          simp only [fallbackQuery]
          rw [if_neg hans]
        have hrun : processPrompt inp prompt userMessage ctx =
            ⟨none, [(prompt, ctx)], [(prompt, ctx)], [], [("user", userMessage)]⟩ := by
          unfold processPrompt
          rw [hgen2]
          simp only [hfb]
        rw [hrun]
  · intro e2 hq
    unfold processPrompt
    rw [hgen2, hq]
    rfl
  · intro q hq hans
    have hfb : fallbackQuery inp.queryO =
        some ⟨[q.answer], q.sourceDocuments, false, none⟩ := by
      rw [hq]
      simp only [fallbackQuery]
      rw [if_pos hans]
    have h3 := processPrompt_nonempty inp prompt userMessage ctx
      ⟨fallbackQuery inp.queryO, [(prompt, ctx)], [(prompt, ctx)], []⟩
      ⟨[q.answer], q.sourceDocuments, false, none⟩ hgen2 hfb (by simp)
    exact ⟨h3.2.2, h3.1⟩

/-- Witness for C2: no cache hit, the suggest call raises, the fallback
query raises as well. -/
theorem chat_fallback_chain_witness :
    cacheHitTaken ⟨false, false, none, .error "boom", .error "boom2", none, none⟩ = false ∧
    (⟨false, false, none, .error "boom", .error "boom2", none, none⟩ : UIInputs).suggestO =
      .error "boom" ∧
    processPrompt ⟨false, false, none, .error "boom", .error "boom2", none, none⟩
        "p" "u" "c" =
      ⟨none, [("p", "c")], [("p", "c")], [], [("user", "u")]⟩ :=
  ⟨rfl, rfl,
   (chat_fallback_chain ⟨false, false, none, .error "boom", .error "boom2", none, none⟩
     "p" "u" "c" rfl "boom" rfl).2.1 "boom2" rfl⟩

end ChatUI

namespace Suggest

/-- The character class `[:.\-\s]` of the label patterns. -/
def isSepChar (c : Char) : Bool :=
  c = ':' || c = '.' || c = '-' || Py.pyIsSpace c

/-- `(?:Response\s+)` under `re.IGNORECASE`: the word `response`
(case-insensitively) followed by at least one whitespace character
(`\s+` greedy; nothing after it can match whitespace, so maximal munch is
exact).  Returns the remainder on success. -/
def matchRespHead (s : List Char) : Option (List Char) :=
  if (s.take 8).map Py.lowerAscii = "response".data then
    let rest := s.drop 8
    if rest.takeWhile Py.pyIsSpace = [] then none
    else some (rest.dropWhile Py.pyIsSpace)
  else none

/-- `(\d+)[:.\-\s]+`: one or more digits (greedy; backtracking cannot help
since a digit is never a separator) followed by one or more separator
characters (greedy; in every context of use nothing after the run can
fail, so maximal munch is exact).  Returns the digit group and the
remainder after the separator run. -/
def matchLabelPlain (s : List Char) : Option (List Char × List Char) :=
  if s.takeWhile Char.isDigit = [] then none
  else
    let r1 := s.dropWhile Char.isDigit
    if r1.takeWhile isSepChar = [] then none
    else some (s.takeWhile Char.isDigit, r1.dropWhile isSepChar)

/-- `(?:Response\s+)?(\d+)[:.\-\s]+`: try the `Response` prefix first (the
`?` is greedy); if the rest fails after it, backtrack to the bare digit
form (which then fails on the letter `R`, exactly as in the regex
engine). -/
def matchLabel (s : List Char) : Option (List Char × List Char) :=
  match matchRespHead s with
  | some rest =>
    match matchLabelPlain rest with
    | some r => some r
    | none => matchLabelPlain s
  | none => matchLabelPlain s

/-- Whether a label match starts at this position (the lookahead
`(?=(?:Response\s+)?\d+[:.\-\s]+|$)` succeeds before the end). -/
def labelStarts (s : List Char) : Bool := (matchLabel s).isSome

theorem dropWhile_length_le (p : Char → Bool) (l : List Char) :
    (l.dropWhile p).length ≤ l.length := by
  induction l with
  | nil => simp
  | cons c cs ih =>
    rw [List.dropWhile_cons]
    by_cases h : p c = true
    · rw [if_pos h]
      exact Nat.le_succ_of_le ih
    · rw [if_neg h]

theorem dropWhile_length_lt (p : Char → Bool) (s : List Char)
    (h : ¬ s.takeWhile p = []) : (s.dropWhile p).length < s.length := by
  cases s with
  | nil => simp at h
  | cons c cs =>
    by_cases hp : p c = true
    · rw [List.dropWhile_cons, if_pos hp]
      exact Nat.lt_succ_of_le (dropWhile_length_le p cs)
    · rw [List.takeWhile_cons] at h
      rw [Bool.not_eq_true] at hp
      rw [hp] at h
      simp at h

theorem matchLabelPlain_lt (s d r : List Char)
    (h : matchLabelPlain s = some (d, r)) : r.length < s.length := by
  unfold matchLabelPlain at h
  by_cases h1 : s.takeWhile Char.isDigit = []
  · rw [if_pos h1] at h
    cases h
  · rw [if_neg h1] at h
    by_cases h2 : (s.dropWhile Char.isDigit).takeWhile isSepChar = []
    · rw [if_pos h2] at h
      cases h
    · rw [if_neg h2] at h
      cases h
      calc ((s.dropWhile Char.isDigit).dropWhile isSepChar).length
          < (s.dropWhile Char.isDigit).length := dropWhile_length_lt _ _ h2
        _ < s.length := dropWhile_length_lt _ _ h1

theorem matchRespHead_lt (s r : List Char) (h : matchRespHead s = some r) :
    r.length < s.length := by
  unfold matchRespHead at h
  by_cases h1 : (s.take 8).map Py.lowerAscii = "response".data
  · rw [if_pos h1] at h
    by_cases h2 : (s.drop 8).takeWhile Py.pyIsSpace = []
    · rw [if_pos h2] at h
      cases h
    · rw [if_neg h2] at h
      cases h
      calc ((s.drop 8).dropWhile Py.pyIsSpace).length
          < (s.drop 8).length := dropWhile_length_lt _ _ h2
        _ ≤ s.length := by
            rw [List.length_drop]
            omega
  · rw [if_neg h1] at h
    cases h

theorem matchLabel_lt (s d r : List Char) (h : matchLabel s = some (d, r)) :
    r.length < s.length := by
  unfold matchLabel at h
  cases hr : matchRespHead s with
  | none =>
    rw [hr] at h
    exact matchLabelPlain_lt s d r h
  | some rest =>
    simp only [hr] at h
    cases hp : matchLabelPlain rest with
    | none =>
      simp only [hp] at h
      exact matchLabelPlain_lt s d r h
    | some q =>
      simp only [hp] at h
      cases h
      calc r.length < rest.length := matchLabelPlain_lt rest d r hp
        _ < s.length := matchRespHead_lt s rest hr

/-- The lazy `(.*?)(?=…|$)` step: split off the shortest prefix after
which a label starts (or the whole remainder when none does). -/
def splitAtLabel : List Char → List Char × List Char
  | [] => ([], [])
  | c :: cs =>
    if labelStarts (c :: cs) then ([], c :: cs)
    else
      let p := splitAtLabel cs
      (c :: p.1, p.2)

theorem splitAtLabel_le (s : List Char) : (splitAtLabel s).2.length ≤ s.length := by
  induction s with
  | nil => simp [splitAtLabel]
  | cons c cs ih =>
    unfold splitAtLabel
    by_cases h : labelStarts (c :: cs) = true
    · rw [if_pos h]
    · rw [if_neg h]
      calc (splitAtLabel cs).2.length ≤ cs.length := ih
        _ ≤ (c :: cs).length := by simp

/-- `re.findall` of
`(?:Response\s+)?(\d+)[:.\-\s]+(.*?)(?=(?:Response\s+)?\d+[:.\-\s]+|$)`
with `DOTALL | IGNORECASE`: scan left to right; at a label, the match
consumes the label and the content up to the next label start (or the
text end, via the zero-width lookahead), yielding the `(digits, content)`
group pair; otherwise advance one character. -/
def findallLabels (s : List Char) : List (List Char × List Char) :=
  match s with
  | [] => []
  | c :: cs =>
    match h : matchLabel (c :: cs) with
    | some (ds, rest) =>
      (ds, (splitAtLabel rest).1) :: findallLabels (splitAtLabel rest).2
    | none => findallLabels cs
termination_by s.length
decreasing_by
  · have h1 := matchLabel_lt _ _ _ h
    have h2 := splitAtLabel_le rest
    simp only [List.length_cons] at h1 ⊢
    omega
  · simp

/-- Index of the last `'\n'` in a list, if any. -/
def lastNlIdx : List Char → Option Nat
  | [] => none
  | c :: cs =>
    match lastNlIdx cs with
    | some k => some (k + 1)
    | none => if c = '\n' then some 0 else none

/-- The lookahead `(?=\d+[\.\)])`: one or more digits (greedy; shorter
digit runs leave a digit next, which is neither `.` nor `)`, so maximal
munch is exact) followed by `.` or `)`. -/
def numberedAhead (s : List Char) : Bool :=
  s.takeWhile Char.isDigit ≠ [] &&
    (match s.dropWhile Char.isDigit with
     | c :: _ => c = '.' || c = ')'
     | [] => false)

/-- One match of the split pattern `\n\s*\n|\n(?=\d+[\.\)])` at the
current position: the first alternative consumes the newline and the
whitespace run up to (and including) its last newline — greedy `\s*` with
backtracking lands on the last `'\n'` of the run; failing that, a newline
followed by the numbered-line lookahead consumes just the newline. -/
def matchSplitSep : List Char → Option (List Char)
  | [] => none
  | c :: cs =>
    if c = '\n' then
      match lastNlIdx (cs.takeWhile Py.pyIsSpace) with
      | some k => some (cs.drop (k + 1))
      | none => if numberedAhead cs then some cs else none
    else none

theorem lastNlIdx_lt (l : List Char) (k : Nat) (h : lastNlIdx l = some k) :
    k < l.length := by
  induction l generalizing k with
  | nil => cases h
  | cons c cs ih =>
    unfold lastNlIdx at h
    cases hr : lastNlIdx cs with
    | some k' =>
      rw [hr] at h
      cases h
      have := ih k' hr
      simp only [List.length_cons]
      omega
    | none =>
      rw [hr] at h
      by_cases hc : c = '\n'
      · rw [if_pos hc] at h
        cases h
        simp
      · rw [if_neg hc] at h
        cases h

theorem matchSplitSep_lt (s r : List Char) (h : matchSplitSep s = some r) :
    r.length < s.length := by
  cases s with
  | nil => cases h
  | cons c cs =>
    simp only [matchSplitSep] at h
    by_cases hc : c = '\n'
    · rw [if_pos hc] at h
      cases hk : lastNlIdx (cs.takeWhile Py.pyIsSpace) with
      | some k =>
        rw [hk] at h
        cases h
        rw [List.length_drop]
        simp only [List.length_cons]
        omega
      | none =>
        rw [hk] at h
        by_cases hnum : numberedAhead cs = true
        · rw [if_pos hnum] at h
          cases h
          simp
        · rw [if_neg hnum] at h
          cases h
    · rw [if_neg hc] at h
      cases h

/-- `re.split(r'\n\s*\n|\n(?=\d+[\.\)])', text)`: the fields between
non-overlapping leftmost matches of the separator pattern (empty fields
included, as in Python). -/
def splitParts (s : List Char) : List (List Char) :=
  match s with
  | [] => [[]]
  | c :: cs =>
    match h : matchSplitSep (c :: cs) with
    | some rest => [] :: splitParts rest
    | none =>
      match splitParts cs with
      | [] => [[c]]
      | p :: ps => (c :: p) :: ps
termination_by s.length
decreasing_by
  · have := matchSplitSep_lt _ _ h
    omega
  · simp

/-- `re.sub(r'^(?:Response\s+)?\d+[:.\-\s]+', '', part)`: drop a leading
label when one matches (the `^` anchor without `MULTILINE` allows at most
one replacement). -/
def dropLabel (s : List Char) : List Char :=
  match matchLabel s with
  | some p => p.2
  | none => s

/-- The generic acknowledgment string used when the parser found nothing
at all to pad with. -/
def genericAck : List Char :=
  "I understand your inquiry and will help you with that.".data

/-- Primary strategy: the filtered loop over the `findall` matches —
strip each content group, keep it if non-empty and longer than 20
characters. -/
def stage1Go : List (List Char × List Char) → List (List Char) →
    List (List Char)
  | [], acc => acc
  | m :: ms, acc =>
    let c := Py.pyStrip m.2
    if c ≠ [] ∧ 20 < c.length then stage1Go ms (acc ++ [c])
    else stage1Go ms acc

def stage1 (text : List Char) : List (List Char) :=
  stage1Go (findallLabels text) []

/-- Second strategy: loop over the split parts — strip, drop a leading
label, strip again; keep if non-empty, longer than 20 characters and not
already collected; stop as soon as enough suggestions are gathered. -/
def stage2Loop (n : Nat) : List (List Char) → List (List Char) →
    List (List Char)
  | [], acc => acc
  | part :: parts, acc =>
    let p1 := Py.pyStrip part
    let p2 := Py.pyStrip (dropLabel p1)
    if p2 ≠ [] ∧ 20 < p2.length ∧ p2 ∉ acc then
      if n ≤ (acc ++ [p2]).length then acc ++ [p2]
      else stage2Loop n parts (acc ++ [p2])
    else stage2Loop n parts acc

/-- Final fallback: cut the whitespace-tokenised words into `n` roughly
equal slices, keeping the stripped non-empty chunks. -/
def stage3Go (words : List (List Char)) (csize n : Nat) :
    List Nat → List (List Char) → List (List Char)
  | [], acc => acc
  | i :: is, acc =>
    let start := i * csize
    let stop := if i < n - 1 then start + csize else words.length
    let chunk := Py.pyStrip
      (List.intercalate [' '] ((words.drop start).take (stop - start)))
    if chunk ≠ [] then stage3Go words csize n is (acc ++ [chunk])
    else stage3Go words csize n is acc

def stage3 (text : List Char) (n : Nat) : List (List Char) :=
  stage3Go (Py.pySplitWords text) ((Py.pySplitWords text).length / n) n
    (List.range n) []

/-- The padding loop: `while len(suggestions) < n: append(last or
generic)`. -/
def padLoop (n : Nat) (acc : List (List Char)) : List (List Char) :=
  if n ≤ acc.length then acc
  else padLoop n (acc ++ [acc.getLast?.getD genericAck])
termination_by n - acc.length
decreasing_by
  simp only [List.length_append, List.length_cons, List.length_nil]
  omega

/-- `RAGSystem._parse_response_suggestions(text, num_suggestions)`:
labeled-segment extraction, then (if fewer than `n`) the split-based
strategy, then (if still zero) the word-slice fallback, then padding with
the last suggestion (or the generic acknowledgment) and truncation to
`n`. -/
def parseResponseSuggestions (text : List Char) (n : Nat) :
    List (List Char) :=
  let s1 := stage1 text
  let s2 := if s1.length < n then stage2Loop n (splitParts text) s1 else s1
  let s3 := if s2.length < n then
      (if s2.length = 0 then stage3 text n else s2)
    else s2
  (padLoop n s3).take n

theorem stage1Go_mem (ms : List (List Char × List Char)) :
    ∀ acc, (∀ x ∈ acc, 20 < x.length) →
      ∀ x ∈ stage1Go ms acc, 20 < x.length := by
  induction ms with
  | nil =>
    intro acc hacc x hx
    exact hacc x hx
  | cons m ms ih =>
    intro acc hacc x hx
    simp only [stage1Go] at hx
    by_cases hc : Py.pyStrip m.2 ≠ [] ∧ 20 < (Py.pyStrip m.2).length
    · rw [if_pos hc] at hx
      refine ih _ ?_ x hx
      intro y hy
      rcases List.mem_append.mp hy with h | h
      · exact hacc y h
      · rw [List.mem_singleton] at h
        subst h
        exact hc.2
    · rw [if_neg hc] at hx
      exact ih acc hacc x hx

theorem stage2Loop_mem (n : Nat) (parts : List (List Char)) :
    ∀ acc, (∀ x ∈ acc, 20 < x.length) →
      ∀ x ∈ stage2Loop n parts acc, 20 < x.length := by
  induction parts with
  | nil =>
    intro acc hacc x hx
    exact hacc x hx
  | cons part parts ih =>
    intro acc hacc x hx
    simp only [stage2Loop] at hx
    by_cases hc : Py.pyStrip (dropLabel (Py.pyStrip part)) ≠ [] ∧
        20 < (Py.pyStrip (dropLabel (Py.pyStrip part))).length ∧
        Py.pyStrip (dropLabel (Py.pyStrip part)) ∉ acc
    · rw [if_pos hc] at hx
      have hext : ∀ y ∈ acc ++ [Py.pyStrip (dropLabel (Py.pyStrip part))],
          20 < y.length := by
        intro y hy
        rcases List.mem_append.mp hy with h | h
        · exact hacc y h
        · rw [List.mem_singleton] at h
          subst h
          exact hc.2.1
      by_cases hlen : n ≤ (acc ++ [Py.pyStrip (dropLabel (Py.pyStrip part))]).length
      · rw [if_pos hlen] at hx
        exact hext x hx
      · rw [if_neg hlen] at hx
        exact ih _ hext x hx
    · rw [if_neg hc] at hx
      exact ih acc hacc x hx

theorem stage3Go_mem (words : List (List Char)) (csize n : Nat) :
    ∀ (idxs : List Nat) (acc : List (List Char)),
      (∀ x ∈ acc, ¬ x = []) →
      ∀ x ∈ stage3Go words csize n idxs acc, ¬ x = [] := by
  intro idxs
  induction idxs with
  | nil =>
    intro acc hacc x hx
    exact hacc x hx
  | cons i is ih =>
    intro acc hacc x hx
    simp only [stage3Go] at hx
    by_cases hc : Py.pyStrip (List.intercalate [' ']
        ((words.drop (i * csize)).take
          ((if i < n - 1 then i * csize + csize else words.length) - i * csize))) ≠ []
    · rw [if_pos hc] at hx
      refine ih _ ?_ x hx
      intro y hy
      rcases List.mem_append.mp hy with h | h
      · exact hacc y h
      · rw [List.mem_singleton] at h
        subst h
        exact hc
    · rw [if_neg hc] at hx
      exact ih acc hacc x hx

theorem padLoop_length (n : Nat) (acc : List (List Char)) :
    n ≤ (padLoop n acc).length := by
  unfold padLoop
  by_cases h : n ≤ acc.length
  · rw [if_pos h]
    exact h
  · rw [if_neg h]
    exact padLoop_length n (acc ++ [acc.getLast?.getD genericAck])
termination_by n - acc.length
decreasing_by
  simp only [List.length_append, List.length_cons, List.length_nil]
  omega

theorem getLast?_mem_self (l : List (List Char)) (a : List Char)
    (h : l.getLast? = some a) : a ∈ l := by
  obtain ⟨hne, heq⟩ := List.mem_getLast?_eq_getLast (l := l) (x := a) h
  rw [heq]
  exact List.getLast_mem hne

theorem padLoop_mem (n : Nat) (acc : List (List Char))
    (hacc : ∀ x ∈ acc, ¬ x = []) : ∀ x ∈ padLoop n acc, ¬ x = [] := by
  unfold padLoop
  by_cases h : n ≤ acc.length
  · rw [if_pos h]
    exact hacc
  · rw [if_neg h]
    refine padLoop_mem n (acc ++ [acc.getLast?.getD genericAck]) ?_
    intro y hy
    rcases List.mem_append.mp hy with h' | h'
    · exact hacc y h'
    · rw [List.mem_singleton] at h'
      subst h'
      cases hl : acc.getLast? with
      | none =>
        decide
      | some last =>
        exact hacc last (getLast?_mem_self acc last hl)
termination_by n - acc.length
decreasing_by
  simp only [List.length_append, List.length_cons, List.length_nil]
  omega

/-- C1: for every input text and every requested count `n ≥ 1`, the
suggestion parser returns exactly `n` suggestions, all non-empty:
labeled segments longer than 20 characters first, then the
blank-line/numbered-line split with label prefixes stripped and
duplicates dropped, then the word-slice fallback, then padding with the
last suggestion (or the generic acknowledgment) and truncation to `n`. -/
theorem parse_response_suggestions_count_invariant (text : List Char) (n : Nat)
    (_hn : 1 ≤ n) :
    (parseResponseSuggestions text n).length = n ∧
    ∀ s ∈ parseResponseSuggestions text n, s ≠ [] := by
  have key : ∀ s3 : List (List Char), (∀ x ∈ s3, ¬ x = []) →
      ((padLoop n s3).take n).length = n ∧
      ∀ s ∈ (padLoop n s3).take n, s ≠ [] := by
    intro s3 h3
    constructor
    · rw [List.length_take]
      exact Nat.min_eq_left (padLoop_length n s3)
    · intro s hs
      exact padLoop_mem n s3 h3 s (List.take_subset n _ hs)
  have hs1 : ∀ x ∈ stage1 text, 20 < x.length :=
    stage1Go_mem (findallLabels text) [] (by simp)
  have hs2 : ∀ x ∈ (if (stage1 text).length < n
      then stage2Loop n (splitParts text) (stage1 text) else stage1 text),
      20 < x.length := by
    by_cases h : (stage1 text).length < n
    · rw [if_pos h]
      exact stage2Loop_mem n (splitParts text) (stage1 text) hs1
    · rw [if_neg h]
      exact hs1
  have hs2' : ∀ x ∈ (if (stage1 text).length < n
      then stage2Loop n (splitParts text) (stage1 text) else stage1 text),
      ¬ x = [] := by
    intro x hx he
    have := hs2 x hx
    rw [he] at this
    simp at this
  have hs3 : ∀ x ∈ (if (if (stage1 text).length < n
        then stage2Loop n (splitParts text) (stage1 text) else stage1 text).length < n
      then
        (if (if (stage1 text).length < n
            then stage2Loop n (splitParts text) (stage1 text) else stage1 text).length = 0
         then stage3 text n
         else (if (stage1 text).length < n
            then stage2Loop n (splitParts text) (stage1 text) else stage1 text))
      else (if (stage1 text).length < n
        then stage2Loop n (splitParts text) (stage1 text) else stage1 text)),
      ¬ x = [] := by
    by_cases h1 : (if (stage1 text).length < n
        then stage2Loop n (splitParts text) (stage1 text) else stage1 text).length < n
    · rw [if_pos h1]
      by_cases h2 : (if (stage1 text).length < n
          then stage2Loop n (splitParts text) (stage1 text) else stage1 text).length = 0
      · rw [if_pos h2]
        exact stage3Go_mem (Py.pySplitWords text)
          ((Py.pySplitWords text).length / n) n (List.range n) [] (by simp)
      · rw [if_neg h2]
        exact hs2'
    · rw [if_neg h1]
      exact hs2'
  exact key _ hs3

/-- Witness for C1 at `n = 3` on a short unlabeled text. -/
theorem parse_response_suggestions_count_invariant_witness :
    1 ≤ 3 ∧
    ((parseResponseSuggestions "hello there".data 3).length = 3 ∧
     ∀ s ∈ parseResponseSuggestions "hello there".data 3, s ≠ []) :=
  ⟨by decide,
   parse_response_suggestions_count_invariant "hello there".data 3 (by decide)⟩

end Suggest
